import Mathlib

/-!
Verification of the Caravan card game engine.

The development shallowly embeds the game's rule engine and state machine:
the move validator and pile evaluator (module `game/rules.js`, modelled from
the specification since its source is not part of the bundle), the deck
utilities (`game/cardUtils.js`, likewise modelled from the specification),
and the state machine, invariant checker and AI step from the application
module (embedded directly from the source).
-/

namespace Caravan

/-- The two sides of the game, `player` and `ai`. -/
inductive Side
  | player
  | ai
deriving DecidableEq, Repr, Inhabited

/-- Opponent of a side (the source writes `s === 'player' ? 'ai' : 'player'`). -/
def Side.opp : Side → Side
  | .player => .ai
  | .ai => .player

/-- The four suits of a standard deck. -/
inductive Suit
  | hearts
  | diamonds
  | spades
  | clubs
deriving DecidableEq, Repr, Inhabited

/-- Card ranks: Ace, a numeric rank 2..10 (carried as a natural number),
Jack, Queen, King. -/
inductive Rank
  | ace
  | num (n : Nat)
  | jack
  | queen
  | king
deriving DecidableEq, Repr, Inhabited

/-- A card: unique id, suit, rank, and the `removed` flag set when a Jack
ghosts the card. The derived display color is irrelevant to the rules and
is omitted. -/
structure Card where
  id : Nat
  suit : Suit
  rank : Rank
  removed : Bool
deriving DecidableEq, Repr

instance : Inhabited Card := ⟨⟨0, .spades, .ace, false⟩⟩

/-- Modelled from the spec: `isNumericOrAce` of `game/rules.js` (missing from
the bundle); true for Ace and the numeric ranks 2..10. -/
def isNumericOrAce (c : Card) : Bool :=
  match c.rank with
  | .ace => true
  | .num _ => true
  | _ => false

/-- True for the face ranks J, Q, K. -/
def isFaceRank : Rank → Bool
  | .jack => true
  | .queen => true
  | .king => true
  | _ => false

/-- Modelled from the spec: `isFaceCard` of `game/rules.js` (missing from the
bundle); true for Jack, Queen and King. -/
def isFaceCard (c : Card) : Bool := isFaceRank c.rank

/-- Modelled from the spec: `getCardValue` of `game/rules.js` (missing from
the bundle). Value semantics per the spec: A = 1, 2-10 literal, J/Q/K carry
no base value of their own. -/
def getCardValue (c : Card) : Int :=
  match c.rank with
  | .ace => 1
  | .num n => (n : Int)
  | _ => 0

/-- Ascending or descending direction of a pile. -/
inductive Dir
  | asc
  | desc
deriving DecidableEq, Repr

/-- A Queen reverses the active direction context. -/
def Dir.flip : Dir → Dir
  | .asc => .desc
  | .desc => .asc

/-- Direction-scan state: the last live numeric/Ace value seen, and the
established direction, if any. -/
structure DirState where
  last : Option Int
  dir : Option Dir
deriving DecidableEq, Repr

/-- Modelled from the spec: one step of the direction scan of
`game/rules.js` (missing from the bundle). Live numeric/Ace cards are
scanned in raw order; the first two distinct consecutive values fix the
direction; equal values never establish or extend a direction; a Queen
anywhere in the pile flips the active direction context from that point
forward. -/
def dirStep (s : DirState) (c : Card) : DirState :=
  if c.rank = .queen then
    { s with dir := s.dir.map Dir.flip }
  else if isNumericOrAce c && !c.removed then
    let v := getCardValue c
    match s.last, s.dir with
    | none, d => { last := some v, dir := d }
    | some l, none =>
        { last := some v,
          dir := if l < v then some .asc else if v < l then some .desc else none }
    | some _, some d => { last := some v, dir := some d }
  else s

/-- Direction scan over a pile's raw card list, from a given starting
state. -/
def scanDirAux (s : DirState) : List Card → DirState
  | [] => s
  | c :: rest => scanDirAux (dirStep s c) rest

/-- Modelled from the spec: the direction state of a pile, recomputed by
rescanning the pile history (`game/rules.js`, missing from the bundle). -/
def scanDir (cards : List Card) : DirState :=
  scanDirAux { last := none, dir := none } cards

/-- Modelled from the spec: legality of appending a numeric/Ace value to a
pile (`game/rules.js`, missing from the bundle): simulating the append, the
live numeric/Ace sequence must still satisfy the current direction
(strictly greater if ascending, strictly less if descending, equality
always illegal once a direction exists); with no established direction any
value is legal. -/
def numericAppendLegal (cards : List Card) (v : Int) : Bool :=
  match (scanDir cards).dir, (scanDir cards).last with
  | none, _ => true
  | some .asc, some l => decide (l < v)
  | some .desc, some l => decide (v < l)
  | some _, none => true

/-- Modelled from the spec: whether the pile holds at least one live
(non-removed) numeric/Ace card, an eligible King target (part of the
validator of `game/rules.js`, missing from the bundle). -/
def hasLiveNumeric (cards : List Card) : Bool :=
  cards.any (fun c => isNumericOrAce c && !c.removed)

/-- Validation result `{ok, reason?}` as returned by the validator. -/
structure VResult where
  ok : Bool
  reason : Option String
deriving DecidableEq, Repr

/-- Modelled from the spec: `canPlaceCardOnTargetWithReason` of
`game/rules.js` (missing from the bundle), evaluated in the spec's order:
(1) an opponent pile requires a face card and a non-empty pile; (2) a
numeric/Ace card requires the simulated append to respect the current
direction; (3) a King requires a non-empty pile holding a live numeric/Ace
target (probe mode, no index is passed to the validator); (4) a Jack
requires a non-empty pile; (5) a Queen is always legal. Read-only. -/
def canPlaceCardOnTargetWithReason (card : Card) (pileCards : List Card)
    (actorSide targetSide : Side) : VResult :=
  if actorSide ≠ targetSide && !isFaceCard card then
    ⟨false, some "Only picture cards (J/Q/K) can be played on opponent piles."⟩
  else if actorSide ≠ targetSide && pileCards.isEmpty then
    ⟨false, some "Opponent pile must not be empty."⟩
  else if isNumericOrAce card then
    if numericAppendLegal pileCards (getCardValue card) then ⟨true, none⟩
    else ⟨false, some "Value does not continue the pile direction."⟩
  else if card.rank = .king then
    if pileCards.isEmpty then ⟨false, some "King needs a non-empty pile."⟩
    else if hasLiveNumeric pileCards then ⟨true, none⟩
    else ⟨false, some "King needs a live number or Ace to target."⟩
  else if card.rank = .jack then
    if pileCards.isEmpty then ⟨false, some "Jack needs a non-empty pile."⟩
    else ⟨true, none⟩
  else ⟨true, none⟩

/-- Modelled from the spec: `canPlaceCardOnTarget` of `game/rules.js`
(missing from the bundle), the boolean form of the validator. -/
def canPlaceCardOnTarget (card : Card) (pileCards : List Card)
    (actorSide targetSide : Side) : Bool :=
  (canPlaceCardOnTargetWithReason card pileCards actorSide targetSide).ok

/-- Modelled from the spec: `drawOne` of `game/cardUtils.js` (missing from
the bundle): removes and returns the front card and the remaining deck; an
empty deck yields none and the same empty deck. -/
def drawOne : List Card → Option Card × List Card
  | [] => (none, [])
  | c :: rest => (some c, rest)

/-- Modelled from the spec: the pile total of `game/rules.js` (missing from
the bundle), as a fold over raw order tracking a running contribution per
numeric/Ace slot: a numeric/Ace card flushes the previous slot and opens a
new one (contributing zero if the card is removed); each King doubles the
current slot; Jacks and Queens contribute nothing. -/
def pileTotalAux (acc : Int) (slot : Option Int) : List Card → Int
  | [] => acc + slot.getD 0
  | c :: rest =>
    if isNumericOrAce c then
      pileTotalAux (acc + slot.getD 0)
        (some (if c.removed then 0 else getCardValue c)) rest
    else if c.rank = .king then
      pileTotalAux acc (slot.map (· * 2)) rest
    else
      pileTotalAux acc slot rest

/-- Modelled from the spec: the total of one pile. -/
def pileTotal (cards : List Card) : Int := pileTotalAux 0 none cards

/-- Kings bound to the card heading a slot: the Kings occurring before the
next numeric/Ace card in raw order. -/
def kingsBound (rest : List Card) : Nat :=
  (rest.takeWhile (fun c => !isNumericOrAce c)).countP (fun c => c.rank = .king)

/-- The specification's closed form of the pile total: the sum over live
numeric/Ace cards of base value times 2 to the number of Kings bound to
that card; removed cards contribute zero regardless of bound Kings. -/
def pileTotalSpec : List Card → Int
  | [] => 0
  | c :: rest =>
    (if isNumericOrAce c && !c.removed then
        getCardValue c * 2 ^ kingsBound rest
      else 0) + pileTotalSpec rest

/-- Per-pile totals plus grand total. -/
structure Totals where
  perPile : List Int
  total : Int
deriving DecidableEq, Repr

/-- Modelled from the spec: `computePlayerTotals` of `game/rules.js`
(missing from the bundle): the three per-pile totals plus the grand
total. -/
def computePlayerTotals (piles : List (List Card)) : Totals :=
  { perPile := piles.map pileTotal, total := (piles.map pileTotal).sum }

/-- Winner field values: `'player'`, `'ai'` or `'tie'`. -/
inductive Winner
  | player
  | ai
  | tie
deriving DecidableEq, Repr

/-- A move-log entry exactly as constructed by `placeCard` in the source.
The JS object carries `time: Date.now()`, not modelled (always 0 here), and
does not carry a `pileBeforeSize` field; `runInvariants` reads that field,
so it is embedded as an `Option Nat` that `placeCard` leaves at `none`
(mirroring `undefined` in JS). -/
structure MoveEntry where
  actor : Side
  target : Side
  cardRank : Rank
  pileIndex : Nat
  targetVisibleIndex : Option Nat
  aiEnabledAtMove : Bool
  prevTurn : Side
  nextTurn : Side
  time : Nat
  pileBeforeSize : Option Nat
deriving DecidableEq, Repr

/-- One player's state: hand plus piles. A pile `{cards: [...]}` is embedded
as its card list. -/
structure PlayerState where
  hand : List Card
  piles : List (List Card)
deriving DecidableEq, Repr

/-- The game state held by the application component. -/
structure GameState where
  deck : List Card
  player : PlayerState
  ai : PlayerState
  turn : Side
  aiEnabled : Bool
  gameOver : Bool
  winner : Option Winner
  message : Option String
  moveCount : Nat
  moveLog : List MoveEntry
deriving DecidableEq, Repr

/-- Lookup `g.players[side]`. -/
def GameState.playerOf (g : GameState) : Side → PlayerState
  | .player => g.player
  | .ai => g.ai

/-- Replace `g.players[side]`. -/
def GameState.setSide (g : GameState) : Side → PlayerState → GameState
  | .player, p => { g with player := p }
  | .ai, p => { g with ai := p }

/-- `arr.splice(i, 0, c)` on a JS array: insert at position `i`, clamped to
the array length. -/
def spliceInsert (l : List Card) (i : Nat) (c : Card) : List Card :=
  l.take i ++ c :: l.drop i

/-- The committed tail of `placeCard` (source lines 365-406): draw one card
for the actor, remove the played card from the hand, install the new raw
pile at `pileIndex`, flip the turn, append the move-log entry and increment
the move counter; the message is cleared. -/
def commitMove (g : GameState) (actorSide targetSide : Side) (handIndex : Nat)
    (card : Card) (pileIndex : Nat) (targetVisibleIndex : Option Nat)
    (newRaw : List Card) : GameState :=
  let dr := drawOne g.deck
  let newActorHand := (g.playerOf actorSide).hand.eraseIdx handIndex ++ dr.1.toList
  let g1 := g.setSide actorSide { g.playerOf actorSide with hand := newActorHand }
  let g2 := g1.setSide targetSide
    { g1.playerOf targetSide with
      piles := (g1.playerOf targetSide).piles.set pileIndex newRaw }
  { g2 with
    deck := dr.2,
    turn := actorSide.opp,
    moveCount := g.moveCount + 1,
    message := none,
    moveLog := g.moveLog ++
      [{ actor := actorSide, target := targetSide, cardRank := card.rank,
         pileIndex := pileIndex, targetVisibleIndex := targetVisibleIndex,
         aiEnabledAtMove := g.aiEnabled, prevTurn := g.turn,
         nextTurn := actorSide.opp, time := 0, pileBeforeSize := none }] }

/-- `placeCard` (source lines 308-408), the sole mutation entry point. A
game-over state and a card id absent from the actor's hand return the state
unchanged; a validator failure attaches the validator's reason; face cards
on a non-empty pile require a target index; a King requires a live
numeric/Ace target; a Jack marks its target removed; otherwise the move is
committed via `commitMove`. -/
def placeCard (g : GameState) (actorSide targetSide : Side) (cardId : Nat)
    (pileIndex : Nat) (targetVisibleIndex : Option Nat) : GameState :=
  if g.gameOver then g
  else
    match (g.playerOf actorSide).hand.findIdx? (fun c => c.id = cardId) with
    | none => g
    | some handIndex =>
      let card := (g.playerOf actorSide).hand.getD handIndex default
      let pileCards := (g.playerOf targetSide).piles.getD pileIndex []
      let validation := canPlaceCardOnTargetWithReason card pileCards actorSide targetSide
      if !validation.ok then
        { g with message := some (validation.reason.getD "Invalid move.") }
      else if isNumericOrAce card then
        commitMove g actorSide targetSide handIndex card pileIndex
          targetVisibleIndex (pileCards ++ [card])
      else
        match targetVisibleIndex with
        | none =>
          if pileCards.length > 0 then
            { g with message := some "Choose a specific card to place J/Q/K onto." }
          else if card.rank = .king then
            { g with message := some "King must be placed on a number or Ace." }
          else
            commitMove g actorSide targetSide handIndex card pileIndex
              targetVisibleIndex (pileCards ++ [card])
        | some tvi =>
          let targetOk : Bool :=
            match pileCards.get? tvi with
            | some tc => isNumericOrAce tc && !tc.removed
            | none => false
          if card.rank = .king && !targetOk then
            { g with message := some "King must be placed on a number or Ace that is not removed." }
          else
            let inserted := spliceInsert pileCards (tvi + 1) card
            let newRaw :=
              if card.rank = .jack then
                match pileCards.get? tvi with
                | some tc => inserted.set tvi { tc with removed := true }
                | none => inserted
              else inserted
            commitMove g actorSide targetSide handIndex card pileIndex
              targetVisibleIndex newRaw

/-- `isInRange` (source line 268): a pile total qualifies when it lies in
[21, 26]. -/
def isInRange (t : Int) : Bool := decide (21 ≤ t ∧ t ≤ 26)

/-- `playerAllInRange` (source lines 269-272): all three of the player's
pile totals qualify. -/
def playerAllInRange (g : GameState) : Bool :=
  (computePlayerTotals g.player.piles).perPile.all isInRange

/-- `aiAllInRange` (source lines 273-276). -/
def aiAllInRange (g : GameState) : Bool :=
  (computePlayerTotals g.ai.piles).perPile.all isInRange

/-- `decideWinnerIfAny` (source lines 278-287): none while neither side has
all three piles in range; the sole qualifying side wins; if both qualify the
higher grand total wins, equality is a tie. -/
def decideWinnerIfAny (g : GameState) : Option Winner :=
  if !playerAllInRange g && !aiAllInRange g then none
  else if playerAllInRange g && !aiAllInRange g then some .player
  else if aiAllInRange g && !playerAllInRange g then some .ai
  else if (computePlayerTotals g.player.piles).total > (computePlayerTotals g.ai.piles).total then
    some .player
  else if (computePlayerTotals g.ai.piles).total > (computePlayerTotals g.player.piles).total then
    some .ai
  else some .tie

/-- The end-condition effect (source lines 290-296): the instant a winner is
decided on a live game, `gameOver` is set with the winner. -/
def checkEnd (g : GameState) : GameState :=
  if g.gameOver then g
  else
    match decideWinnerIfAny g with
    | some w => { g with gameOver := true, winner := some w }
    | none => g

/-- The errors `runInvariants` can report, one constructor per checked
condition, carrying the data interpolated into the source's message
strings. -/
inductive InvError
  | turnAlternation (pairIndex : Nat) (actor : Side)
  | turnMismatch (expected actual : Side)
  | jackOnEmpty (index : Nat)
  | opponentNonFace (index : Nat) (rank : Rank)
  | deckNegative (len : Int)
deriving DecidableEq, Repr

/-- Check 1 of `runInvariants` (source lines 148-156): scan consecutive
log-entry pairs, counting one check per pair examined, and stop at the
first pair sharing an actor. Returns the found violation (the index `i` of
the second entry, as in the source loop) and the number of checks
performed. -/
def alternationScan (i : Nat) : List MoveEntry → Option (Nat × Side) × Nat
  | [] => (none, 0)
  | [_] => (none, 0)
  | a :: b :: rest =>
    if a.actor = b.actor then (some (i, a.actor), 1)
    else
      let r := alternationScan (i + 1) (b :: rest)
      (r.1, r.2 + 1)

/-- Check 3 of `runInvariants` (source lines 169-176): the first log entry
with rank J and a recorded `pileBeforeSize` of 0. The source increments
`checked` only when a violation is found. -/
def jackScan (i : Nat) : List MoveEntry → Option Nat
  | [] => none
  | m :: rest =>
    if m.cardRank = .jack ∧ m.pileBeforeSize = some 0 then some i
    else jackScan (i + 1) rest

/-- Check 4 of `runInvariants` (source lines 179-189): scan opponent-target
entries, counting one check per such entry, and stop at the first one whose
rank is not a face rank. -/
def oppScan (i : Nat) : List MoveEntry → Option (Nat × Rank) × Nat
  | [] => (none, 0)
  | m :: rest =>
    if m.actor ≠ m.target then
      if !isFaceRank m.cardRank then (some (i, m.cardRank), 1)
      else
        let r := oppScan (i + 1) rest
        (r.1, r.2 + 1)
    else oppScan (i + 1) rest

/-- The report returned by `runInvariants`. -/
structure InvariantReport where
  errors : List InvError
  checked : Nat
  moveCount : Nat
deriving DecidableEq, Repr

/-- `runInvariants` (source lines 141-198): the pure diagnostic over the
move log and current state. Checks, in order: turn alternation between
consecutive entries; `turn` equal to the opponent of the last entry's actor
unless the game is over; no Jack entry recorded against a pile of size 0;
no non-face rank on an opponent-target entry; deck length non-negative
(the deck length is compared against 0 as in the source, though a list
length is never negative). -/
def runInvariants (g : GameState) : InvariantReport :=
  let log := g.moveLog
  let a := alternationScan 1 log
  let e1 : List InvError :=
    match a.1 with
    | some (i, s) => [.turnAlternation i s]
    | none => []
  let e2c2 : List InvError × Nat :=
    if g.gameOver = false ∧ log ≠ [] then
      match log.getLast? with
      | some last =>
        (if g.turn ≠ last.actor.opp then [.turnMismatch last.actor.opp g.turn] else [], 1)
      | none => ([], 0)
    else ([], 0)
  let j := jackScan 0 log
  let e3 : List InvError :=
    match j with
    | some i => [.jackOnEmpty i]
    | none => []
  let c3 : Nat :=
    match j with
    | some _ => 1
    | none => 0
  let o := oppScan 0 log
  let e4 : List InvError :=
    match o.1 with
    | some (i, r) => [.opponentNonFace i r]
    | none => []
  let e5 : List InvError :=
    if (g.deck.length : Int) < 0 then [.deckNegative (g.deck.length : Int)] else []
  { errors := e1 ++ e2c2.1 ++ e3 ++ e4 ++ e5,
    checked := a.2 + e2c2.2 + c3 + o.2 + 1,
    moveCount := log.length }

/-- The drag payload `{source, owner, cardId}` produced by the hand
component. The source checks `owner` against the literals `'player'` and
`'ai'`; embedding `owner` as a `Side` makes that check vacuous. -/
structure DragPayload where
  source : String
  owner : Side
  cardId : Nat
deriving DecidableEq, Repr

/-- `canDropOnTargetPileContainer` (source lines 411-423): pure legality
probe for container drops; requires a hand payload whose owner is the side
to move, holding a numeric/Ace card that the validator accepts. -/
def canDropOnTargetPileContainer (g : GameState) (targetSide : Side)
    (pileIndex : Nat) (payload : Option DragPayload) : Bool :=
  match payload with
  | none => false
  | some p =>
    if p.source ≠ "hand" then false
    else if p.owner ≠ g.turn then false
    else
      match (g.playerOf p.owner).hand.find? (fun c => c.id = p.cardId) with
      | none => false
      | some card =>
        if !isNumericOrAce card then false
        else
          canPlaceCardOnTarget card
            ((g.playerOf targetSide).piles.getD pileIndex []) p.owner targetSide

/-- A candidate move enumerated by the AI effect. -/
structure AIMove where
  actor : Side
  target : Side
  cardId : Nat
  pileIndex : Nat
  tvi : Option Nat
deriving DecidableEq, Repr

/-- The AI candidate moves for one hand card (source lines 550-573): the
three own piles (face cards targeting the latest layer when the pile is
non-empty, numeric/Ace cards with no index), then the three opponent piles
(face cards only, non-empty pile, targeting the latest layer). -/
def aiMovesForCard (g : GameState) (card : Card) : List AIMove :=
  ((List.range 3).filterMap fun i =>
    let pile := g.ai.piles.getD i []
    if canPlaceCardOnTarget card pile .ai .ai then
      if isFaceCard card && !pile.isEmpty then
        some ⟨.ai, .ai, card.id, i, some (pile.length - 1)⟩
      else if isNumericOrAce card then
        some ⟨.ai, .ai, card.id, i, none⟩
      else none
    else none) ++
  ((List.range 3).filterMap fun i =>
    let pile := g.player.piles.getD i []
    if canPlaceCardOnTarget card pile .ai .player && isFaceCard card && !pile.isEmpty then
      some ⟨.ai, .player, card.id, i, some (pile.length - 1)⟩
    else none)

/-- All AI candidate moves, in hand order. -/
def aiCandidateMoves (g : GameState) : List AIMove :=
  (g.ai.hand.map (aiMovesForCard g)).flatten

/-- The AI effect's decision (source lines 539-588), with the random pick
abstracted as an index: under the scheduling guards, an empty candidate
list skips the AI turn (turn reverts to the human with a message, nothing
else changes); otherwise the picked candidate is committed through
`placeCard`. -/
def aiStep (g : GameState) (pick : Nat) : GameState :=
  if g.gameOver ∨ g.aiEnabled = false ∨ g.turn ≠ .ai then g
  else
    match aiCandidateMoves g with
    | [] => { g with turn := .player, message := some "Opponent skipped (no valid moves)." }
    | ms =>
      let m := ms.getD (pick % ms.length) ⟨.ai, .ai, 0, 0, none⟩
      placeCard g m.actor m.target m.cardId m.pileIndex m.tvi

end Caravan
namespace Caravan

/-- Number of live numeric/Ace cards in a pile. -/
def liveNumericCount (cards : List Card) : Nat :=
  cards.countP (fun c => isNumericOrAce c && !c.removed)

/-- The alternation segment of the invariant report's error list. -/
def altErrors (log : List MoveEntry) : List InvError :=
  match (alternationScan 1 log).1 with
  | some (i, s) => [.turnAlternation i s]
  | none => []

/-- The turn-mismatch segment of the invariant report's error list. -/
def turnErrors (g : GameState) : List InvError :=
  if g.gameOver = false ∧ g.moveLog ≠ [] then
    match g.moveLog.getLast? with
    | some last =>
      if g.turn ≠ last.actor.opp then [.turnMismatch last.actor.opp g.turn] else []
    | none => []
  else []

/-- The Jack-on-empty segment of the invariant report's error list. -/
def jackErrors (log : List MoveEntry) : List InvError :=
  match jackScan 0 log with
  | some i => [.jackOnEmpty i]
  | none => []

/-- The opponent-targeting segment of the invariant report's error list. -/
def oppErrors (log : List MoveEntry) : List InvError :=
  match (oppScan 0 log).1 with
  | some (i, r) => [.opponentNonFace i r]
  | none => []

/-- The deck-length segment of the invariant report's error list. -/
def deckErrors (g : GameState) : List InvError :=
  if (g.deck.length : Int) < 0 then [.deckNegative (g.deck.length : Int)] else []

/-- Concrete cards used by witnesses and counterexamples. -/
def aceHearts : Card := ⟨1, .hearts, .ace, false⟩

/-- A three of hearts. -/
def threeHearts : Card := ⟨2, .hearts, .num 3, false⟩

/-- A five of spades. -/
def fiveSpades : Card := ⟨3, .spades, .num 5, false⟩

/-- A seven of clubs. -/
def sevenClubs : Card := ⟨4, .clubs, .num 7, false⟩

/-- A queen of diamonds. -/
def queenDiamonds : Card := ⟨5, .diamonds, .queen, false⟩

/-- A jack of spades. -/
def jackSpades : Card := ⟨6, .spades, .jack, false⟩

/-- A king of hearts. -/
def kingHearts : Card := ⟨7, .hearts, .king, false⟩

/-- A four of clubs. -/
def fourClubs : Card := ⟨8, .clubs, .num 4, false⟩

/-- A small mid-game state used by witnesses and counterexamples. -/
def baseGame : GameState :=
  { deck := [sevenClubs],
    player := ⟨[fiveSpades, jackSpades, queenDiamonds], [[], [aceHearts], []]⟩,
    ai := ⟨[threeHearts], [[], [], []]⟩,
    turn := .player, aiEnabled := true, gameOver := false, winner := none,
    message := none, moveCount := 0, moveLog := [] }

/-- The same state after the game has ended. -/
def overGame : GameState := { baseGame with gameOver := true, winner := some .player }

/-- A state in which every pile total of the player lies in [21, 26]. -/
def winGame : GameState :=
  { baseGame with
    player := ⟨[], [[sevenClubs, sevenClubs, sevenClubs],
                    [sevenClubs, sevenClubs, sevenClubs],
                    [sevenClubs, sevenClubs, sevenClubs]]⟩ }

/-- A state on the AI turn in which the AI has no cards, hence no moves. -/
def aiStuckGame : GameState :=
  { baseGame with turn := .ai, ai := ⟨[], [[], [], []]⟩ }

/-- The base state with the turn handed to the AI side. -/
def turnedGame : GameState := { baseGame with turn := .ai }

lemma playerOf_setSide_same (g : GameState) (s : Side) (p : PlayerState) :
    (g.setSide s p).playerOf s = p := by
  cases s <;> rfl

lemma playerOf_setSide_other (g : GameState) (s t : Side) (p : PlayerState) (h : s ≠ t) :
    (g.setSide s p).playerOf t = g.playerOf t := by
  cases s <;> cases t <;> first | rfl | exact absurd rfl h

lemma commitMove_moveCount (g : GameState) (a t : Side) (hi : Nat) (card : Card)
    (pi : Nat) (tvi : Option Nat) (raw : List Card) :
    (commitMove g a t hi card pi tvi raw).moveCount = g.moveCount + 1 := by
  cases a <;> cases t <;> rfl

lemma commitMove_turn (g : GameState) (a t : Side) (hi : Nat) (card : Card)
    (pi : Nat) (tvi : Option Nat) (raw : List Card) :
    (commitMove g a t hi card pi tvi raw).turn = a.opp := by
  cases a <;> cases t <;> rfl

lemma commitMove_deck (g : GameState) (a t : Side) (hi : Nat) (card : Card)
    (pi : Nat) (tvi : Option Nat) (raw : List Card) :
    (commitMove g a t hi card pi tvi raw).deck = (drawOne g.deck).2 := by
  cases a <;> cases t <;> rfl

lemma commitMove_moveLog (g : GameState) (a t : Side) (hi : Nat) (card : Card)
    (pi : Nat) (tvi : Option Nat) (raw : List Card) :
    (commitMove g a t hi card pi tvi raw).moveLog = g.moveLog ++
      [{ actor := a, target := t, cardRank := card.rank, pileIndex := pi,
         targetVisibleIndex := tvi, aiEnabledAtMove := g.aiEnabled,
         prevTurn := g.turn, nextTurn := a.opp, time := 0, pileBeforeSize := none }] := by
  cases a <;> cases t <;> rfl

lemma commitMove_hand_actor (g : GameState) (a t : Side) (hi : Nat) (card : Card)
    (pi : Nat) (tvi : Option Nat) (raw : List Card) :
    ((commitMove g a t hi card pi tvi raw).playerOf a).hand =
      (g.playerOf a).hand.eraseIdx hi ++ (drawOne g.deck).1.toList := by
  cases a <;> cases t <;> rfl

lemma commitMove_piles_target (g : GameState) (a t : Side) (hi : Nat) (card : Card)
    (pi : Nat) (tvi : Option Nat) (raw : List Card) :
    ((commitMove g a t hi card pi tvi raw).playerOf t).piles =
      (g.playerOf t).piles.set pi raw := by
  cases a <;> cases t <;> rfl

lemma drawOne_snd (deck : List Card) : (drawOne deck).2 = deck.tail := by
  cases deck <;> rfl

lemma drawOne_fst_toList (deck : List Card) : (drawOne deck).1.toList = deck.take 1 := by
  cases deck <;> rfl

lemma isNumericOrAce_false_of_face (c : Card) (h : isFaceCard c = true) :
    isNumericOrAce c = false := by
  unfold isFaceCard isFaceRank at h
  unfold isNumericOrAce
  cases hr : c.rank <;> simp [hr] at h ⊢

theorem placeCard_success_numeric (g : GameState) (a t : Side) (cardId pileIndex : Nat)
    (tvi : Option Nat) (hi : Nat)
    (hGo : g.gameOver = false)
    (hIdx : (g.playerOf a).hand.findIdx? (fun c => c.id = cardId) = some hi)
    (hnum : isNumericOrAce ((g.playerOf a).hand.getD hi default) = true)
    (hok : (canPlaceCardOnTargetWithReason ((g.playerOf a).hand.getD hi default)
      ((g.playerOf t).piles.getD pileIndex []) a t).ok = true) :
    placeCard g a t cardId pileIndex tvi =
      commitMove g a t hi ((g.playerOf a).hand.getD hi default) pileIndex tvi
        (((g.playerOf t).piles.getD pileIndex []) ++ [(g.playerOf a).hand.getD hi default]) := by
  simp only [List.getD, List.get?_eq_getElem?] at hok hnum
  simp only [placeCard, hGo, hIdx, List.getD, List.get?_eq_getElem?]
  simp [hok, hnum]

end Caravan
namespace Caravan

theorem placeCard_gameOver (g : GameState) (a t : Side) (cardId pileIndex : Nat)
    (tvi : Option Nat) (h : g.gameOver = true) :
    placeCard g a t cardId pileIndex tvi = g := by
  simp [placeCard, h]

theorem placeCard_notFound (g : GameState) (a t : Side) (cardId pileIndex : Nat)
    (tvi : Option Nat) (hGo : g.gameOver = false)
    (h : (g.playerOf a).hand.findIdx? (fun c => c.id = cardId) = none) :
    placeCard g a t cardId pileIndex tvi = g := by
  simp [placeCard, hGo, h]

theorem placeCard_invalid (g : GameState) (a t : Side) (cardId pileIndex : Nat)
    (tvi : Option Nat) (hi : Nat)
    (hGo : g.gameOver = false)
    (hIdx : (g.playerOf a).hand.findIdx? (fun c => c.id = cardId) = some hi)
    (hok : (canPlaceCardOnTargetWithReason ((g.playerOf a).hand.getD hi default)
      ((g.playerOf t).piles.getD pileIndex []) a t).ok = false) :
    placeCard g a t cardId pileIndex tvi =
      { g with message := some ((canPlaceCardOnTargetWithReason
          ((g.playerOf a).hand.getD hi default)
          ((g.playerOf t).piles.getD pileIndex []) a t).reason.getD "Invalid move.") } := by
  simp only [List.getD, List.get?_eq_getElem?] at hok
  simp only [placeCard, hGo, hIdx, List.getD, List.get?_eq_getElem?]
  simp [hok]

theorem placeCard_success_face (g : GameState) (a t : Side) (cardId pileIndex : Nat)
    (tvi : Nat) (hi : Nat)
    (hGo : g.gameOver = false)
    (hIdx : (g.playerOf a).hand.findIdx? (fun c => c.id = cardId) = some hi)
    (hface : isFaceCard ((g.playerOf a).hand.getD hi default) = true)
    (hok : (canPlaceCardOnTargetWithReason ((g.playerOf a).hand.getD hi default)
      ((g.playerOf t).piles.getD pileIndex []) a t).ok = true)
    (hking : ((g.playerOf a).hand.getD hi default).rank = .king →
      (match ((g.playerOf t).piles.getD pileIndex []).get? tvi with
        | some tc => isNumericOrAce tc && !tc.removed
        | none => false) = true) :
    placeCard g a t cardId pileIndex (some tvi) =
      commitMove g a t hi ((g.playerOf a).hand.getD hi default) pileIndex (some tvi)
        (if ((g.playerOf a).hand.getD hi default).rank = .jack then
          match ((g.playerOf t).piles.getD pileIndex []).get? tvi with
          | some tc =>
            (spliceInsert ((g.playerOf t).piles.getD pileIndex []) (tvi + 1)
              ((g.playerOf a).hand.getD hi default)).set tvi { tc with removed := true }
          | none =>
            spliceInsert ((g.playerOf t).piles.getD pileIndex []) (tvi + 1)
              ((g.playerOf a).hand.getD hi default)
        else
          spliceInsert ((g.playerOf t).piles.getD pileIndex []) (tvi + 1)
            ((g.playerOf a).hand.getD hi default)) := by
  simp only [List.getD, List.get?_eq_getElem?] at hok hking hface ⊢
  simp only [placeCard, hGo, hIdx, List.getD, List.get?_eq_getElem?]
  rw [isNumericOrAce_false_of_face _ hface]
  by_cases hk : ((g.playerOf a).hand[hi]?.getD default).rank = Rank.king
  · simp [hok, hk, hking hk]
  · simp [hok, hk]

end Caravan
namespace Caravan

end Caravan
namespace Caravan

theorem placeCard_face_none_nonempty (g : GameState) (a t : Side) (cardId pileIndex : Nat)
    (hi : Nat)
    (hGo : g.gameOver = false)
    (hIdx : (g.playerOf a).hand.findIdx? (fun c => c.id = cardId) = some hi)
    (hok : (canPlaceCardOnTargetWithReason ((g.playerOf a).hand.getD hi default)
      ((g.playerOf t).piles.getD pileIndex []) a t).ok = true)
    (hnum : isNumericOrAce ((g.playerOf a).hand.getD hi default) = false)
    (hlen : ((g.playerOf t).piles.getD pileIndex []).length > 0) :
    placeCard g a t cardId pileIndex none =
      { g with message := some "Choose a specific card to place J/Q/K onto." } := by
  simp only [List.getD, List.get?_eq_getElem?] at hok hnum hlen
  simp only [placeCard, hGo, hIdx, List.getD, List.get?_eq_getElem?]
  simp [hok, hnum, hlen]

theorem placeCard_face_none_king (g : GameState) (a t : Side) (cardId pileIndex : Nat)
    (hi : Nat)
    (hGo : g.gameOver = false)
    (hIdx : (g.playerOf a).hand.findIdx? (fun c => c.id = cardId) = some hi)
    (hok : (canPlaceCardOnTargetWithReason ((g.playerOf a).hand.getD hi default)
      ((g.playerOf t).piles.getD pileIndex []) a t).ok = true)
    (hnum : isNumericOrAce ((g.playerOf a).hand.getD hi default) = false)
    (hlen : ¬ ((g.playerOf t).piles.getD pileIndex []).length > 0)
    (hk : ((g.playerOf a).hand.getD hi default).rank = .king) :
    placeCard g a t cardId pileIndex none =
      { g with message := some "King must be placed on a number or Ace." } := by
  simp only [List.getD, List.get?_eq_getElem?] at hok hnum hlen hk
  simp only [placeCard, hGo, hIdx, List.getD, List.get?_eq_getElem?]
  simp [hok, hnum, hlen, hk]

theorem placeCard_success_face_empty (g : GameState) (a t : Side) (cardId pileIndex : Nat)
    (hi : Nat)
    (hGo : g.gameOver = false)
    (hIdx : (g.playerOf a).hand.findIdx? (fun c => c.id = cardId) = some hi)
    (hok : (canPlaceCardOnTargetWithReason ((g.playerOf a).hand.getD hi default)
      ((g.playerOf t).piles.getD pileIndex []) a t).ok = true)
    (hnum : isNumericOrAce ((g.playerOf a).hand.getD hi default) = false)
    (hlen : ¬ ((g.playerOf t).piles.getD pileIndex []).length > 0)
    (hk : ¬ ((g.playerOf a).hand.getD hi default).rank = .king) :
    placeCard g a t cardId pileIndex none =
      commitMove g a t hi ((g.playerOf a).hand.getD hi default) pileIndex none
        (((g.playerOf t).piles.getD pileIndex []) ++ [(g.playerOf a).hand.getD hi default]) := by
  simp only [List.getD, List.get?_eq_getElem?] at hok hnum hlen hk ⊢
  simp only [placeCard, hGo, hIdx, List.getD, List.get?_eq_getElem?]
  simp [hok, hnum, hlen, hk]

theorem placeCard_king_badtarget (g : GameState) (a t : Side) (cardId pileIndex : Nat)
    (tvi : Nat) (hi : Nat)
    (hGo : g.gameOver = false)
    (hIdx : (g.playerOf a).hand.findIdx? (fun c => c.id = cardId) = some hi)
    (hok : (canPlaceCardOnTargetWithReason ((g.playerOf a).hand.getD hi default)
      ((g.playerOf t).piles.getD pileIndex []) a t).ok = true)
    (hnum : isNumericOrAce ((g.playerOf a).hand.getD hi default) = false)
    (hk : ((g.playerOf a).hand.getD hi default).rank = .king)
    (htgt : (match ((g.playerOf t).piles.getD pileIndex []).get? tvi with
      | some tc => isNumericOrAce tc && !tc.removed
      | none => false) = false) :
    placeCard g a t cardId pileIndex (some tvi) =
      { g with message := some "King must be placed on a number or Ace that is not removed." } := by
  simp only [List.getD, List.get?_eq_getElem?] at hok hnum hk htgt
  simp only [placeCard, hGo, hIdx, List.getD, List.get?_eq_getElem?]
  simp [hok, hnum, hk, htgt]

theorem placeCard_reject_frame (g : GameState) (a t : Side) (cardId pileIndex : Nat)
    (tvi : Option Nat)
    (h : (placeCard g a t cardId pileIndex tvi).moveCount = g.moveCount) :
    { placeCard g a t cardId pileIndex tvi with message := g.message } = g := by
  by_cases hGo : g.gameOver = true
  · rw [placeCard_gameOver g a t cardId pileIndex tvi hGo]
  · replace hGo : g.gameOver = false := by simpa using hGo
    cases hIdx : (g.playerOf a).hand.findIdx? (fun c => c.id = cardId) with
    | none => rw [placeCard_notFound g a t cardId pileIndex tvi hGo hIdx]
    | some hi =>
      by_cases hok : (canPlaceCardOnTargetWithReason ((g.playerOf a).hand.getD hi default)
          ((g.playerOf t).piles.getD pileIndex []) a t).ok = true
      · by_cases hnum : isNumericOrAce ((g.playerOf a).hand.getD hi default) = true
        · rw [placeCard_success_numeric g a t cardId pileIndex tvi hi hGo hIdx hnum hok,
            commitMove_moveCount] at h
          omega
        · replace hnum : isNumericOrAce ((g.playerOf a).hand.getD hi default) = false := by
            simpa using hnum
          cases tvi with
          | none =>
            by_cases hlen : ((g.playerOf t).piles.getD pileIndex []).length > 0
            · rw [placeCard_face_none_nonempty g a t cardId pileIndex hi hGo hIdx hok hnum hlen]
            · by_cases hk : ((g.playerOf a).hand.getD hi default).rank = .king
              · rw [placeCard_face_none_king g a t cardId pileIndex hi hGo hIdx hok hnum hlen hk]
              · rw [placeCard_success_face_empty g a t cardId pileIndex hi hGo hIdx hok hnum hlen hk,
                  commitMove_moveCount] at h
                omega
          | some v =>
            by_cases hk : ((g.playerOf a).hand.getD hi default).rank = .king
            · by_cases htgt : (match ((g.playerOf t).piles.getD pileIndex []).get? v with
                | some tc => isNumericOrAce tc && !tc.removed
                | none => false) = true
              · have hface : isFaceCard ((g.playerOf a).hand.getD hi default) = true := by
                  unfold isFaceCard isFaceRank
                  rw [hk]
                rw [placeCard_success_face g a t cardId pileIndex v hi hGo hIdx hface hok
                  (fun _ => htgt), commitMove_moveCount] at h
                omega
              · replace htgt : (match ((g.playerOf t).piles.getD pileIndex []).get? v with
                  | some tc => isNumericOrAce tc && !tc.removed
                  | none => false) = false := by simpa using htgt
                rw [placeCard_king_badtarget g a t cardId pileIndex v hi hGo hIdx hok hnum hk htgt]
            · have hface : isFaceCard ((g.playerOf a).hand.getD hi default) = true := by
                unfold isFaceCard isFaceRank
                unfold isNumericOrAce at hnum
                cases hr : ((g.playerOf a).hand.getD hi default).rank <;> simp_all
              rw [placeCard_success_face g a t cardId pileIndex v hi hGo hIdx hface hok
                (fun hkk => absurd hkk hk), commitMove_moveCount] at h
              omega
      · replace hok : (canPlaceCardOnTargetWithReason ((g.playerOf a).hand.getD hi default)
            ((g.playerOf t).piles.getD pileIndex []) a t).ok = false := by simpa using hok
        rw [placeCard_invalid g a t cardId pileIndex tvi hi hGo hIdx hok]

end Caravan
namespace Caravan

lemma liveNumericCount_cons (c : Card) (rest : List Card) :
    liveNumericCount (c :: rest) =
      liveNumericCount rest + (if (isNumericOrAce c && !c.removed) = true then 1 else 0) := by
  unfold liveNumericCount
  rw [List.countP_cons]

lemma scanDirAux_dir_none_of_count_zero :
    ∀ (l : List Card) (s : DirState), s.dir = none → liveNumericCount l = 0 →
      (scanDirAux s l).dir = none := by
  intro l
  induction l with
  | nil => intro s hs _; exact hs
  | cons c rest ih =>
    intro s hs hc
    rw [liveNumericCount_cons] at hc
    have hp : (isNumericOrAce c && !c.removed) = false := by
      by_contra hcon
      rw [Bool.not_eq_false] at hcon
      rw [if_pos hcon] at hc
      omega
    have hrest : liveNumericCount rest = 0 := by
      rw [if_neg (by simp [hp])] at hc
      omega
    apply ih _ _ hrest
    unfold dirStep
    by_cases hq : c.rank = .queen
    · simp [hq, hs]
    · simp [hq, hp]
      exact hs

lemma scanDirAux_dir_none_of_count_le_one :
    ∀ (l : List Card) (s : DirState), s.dir = none → s.last = none →
      liveNumericCount l ≤ 1 → (scanDirAux s l).dir = none := by
  intro l
  induction l with
  | nil => intro s hs _ _; exact hs
  | cons c rest ih =>
    intro s hs hlast hc
    rw [liveNumericCount_cons] at hc
    by_cases hp : (isNumericOrAce c && !c.removed) = true
    · have hrest : liveNumericCount rest = 0 := by
        rw [if_pos hp] at hc
        omega
      have hq : ¬ c.rank = .queen := by
        intro hq
        have hnq : isNumericOrAce c = false := by unfold isNumericOrAce; rw [hq]
        simp [hnq] at hp
      apply scanDirAux_dir_none_of_count_zero rest _ _ hrest
      unfold dirStep
      simp [hq, hp, hlast, hs]
    · have hrest : liveNumericCount rest ≤ 1 := by
        rw [if_neg hp] at hc
        omega
      rw [Bool.not_eq_true] at hp
      have hstep : dirStep s c = s ∨ dirStep s c = { s with dir := s.dir.map Dir.flip } := by
        unfold dirStep
        by_cases hq : c.rank = .queen
        · right; simp [hq]
        · left; simp [hq, hp]
      show (scanDirAux (dirStep s c) rest).dir = none
      rcases hstep with hstep | hstep
      · rw [hstep]; exact ih s hs hlast hrest
      · rw [hstep]
        exact ih _ (by simp [hs]) hlast hrest

lemma numericAppendLegal_of_dir_none (cards : List Card) (v : Int)
    (h : (scanDir cards).dir = none) : numericAppendLegal cards v = true := by
  unfold numericAppendLegal
  rw [h]

end Caravan
namespace Caravan

lemma getCardValue_nonneg (c : Card) : 0 ≤ getCardValue c := by
  unfold getCardValue
  cases c.rank <;> simp

lemma pileTotalAux_cons (acc : Int) (slot : Option Int) (c : Card) (rest : List Card) :
    pileTotalAux acc slot (c :: rest) =
      if isNumericOrAce c then
        pileTotalAux (acc + slot.getD 0)
          (some (if c.removed then 0 else getCardValue c)) rest
      else if c.rank = .king then pileTotalAux acc (slot.map (· * 2)) rest
      else pileTotalAux acc slot rest := rfl

lemma pileTotalSpec_cons (c : Card) (rest : List Card) :
    pileTotalSpec (c :: rest) =
      (if isNumericOrAce c && !c.removed then
        getCardValue c * 2 ^ kingsBound rest else 0) + pileTotalSpec rest := rfl

lemma kingsBound_cons_numeric (c : Card) (rest : List Card)
    (h : isNumericOrAce c = true) : kingsBound (c :: rest) = 0 := by
  unfold kingsBound
  simp [List.takeWhile_cons, h]

lemma kingsBound_cons_king (c : Card) (rest : List Card)
    (hn : isNumericOrAce c = false) (hk : c.rank = .king) :
    kingsBound (c :: rest) = kingsBound rest + 1 := by
  unfold kingsBound
  simp [List.takeWhile_cons, hn, List.countP_cons, hk]

lemma kingsBound_cons_other (c : Card) (rest : List Card)
    (hn : isNumericOrAce c = false) (hk : ¬ c.rank = .king) :
    kingsBound (c :: rest) = kingsBound rest := by
  unfold kingsBound
  simp [List.takeWhile_cons, hn, List.countP_cons, hk]

lemma pileTotalAux_some_eq :
    ∀ (l : List Card) (acc s : Int),
      pileTotalAux acc (some s) l = acc + s * 2 ^ kingsBound l + pileTotalSpec l := by
  intro l
  induction l with
  | nil =>
    intro acc s
    show acc + (some s).getD 0 = acc + s * 2 ^ kingsBound [] + pileTotalSpec []
    unfold kingsBound
    show acc + s = acc + s * 2 ^ (List.countP _ []) + (0:Int)
    simp
  | cons c rest ih =>
    intro acc s
    rw [pileTotalAux_cons, pileTotalSpec_cons]
    by_cases hn : isNumericOrAce c = true
    · rw [if_pos hn, ih, kingsBound_cons_numeric c rest hn]
      by_cases hr : c.removed = true <;> simp [hn, hr] <;> try ring
    · rw [Bool.not_eq_true] at hn
      rw [if_neg (by simp [hn])]
      by_cases hk : c.rank = .king
      · rw [if_pos hk]
        show pileTotalAux acc (some (s * 2)) rest = _
        rw [ih, kingsBound_cons_king c rest hn hk]
        simp [hn]
        ring
      · rw [if_neg hk, ih, kingsBound_cons_other c rest hn hk]
        simp [hn]

lemma pileTotalAux_none_eq :
    ∀ (l : List Card) (acc : Int), pileTotalAux acc none l = acc + pileTotalSpec l := by
  intro l
  induction l with
  | nil =>
    intro acc
    show acc + (none : Option Int).getD 0 = acc + pileTotalSpec []
    show acc + 0 = acc + 0
    rfl
  | cons c rest ih =>
    intro acc
    rw [pileTotalAux_cons, pileTotalSpec_cons]
    by_cases hn : isNumericOrAce c = true
    · rw [if_pos hn, pileTotalAux_some_eq]
      by_cases hr : c.removed = true <;> simp [hn, hr] <;> try ring
    · rw [Bool.not_eq_true] at hn
      rw [if_neg (by simp [hn])]
      by_cases hk : c.rank = .king
      · rw [if_pos hk]
        show pileTotalAux acc none rest = _
        rw [ih]
        simp [hn]
      · rw [if_neg hk, ih]
        simp [hn]

lemma pileTotal_eq_spec (cards : List Card) : pileTotal cards = pileTotalSpec cards := by
  unfold pileTotal
  rw [pileTotalAux_none_eq]
  simp

lemma pileTotalSpec_nonneg : ∀ (l : List Card), 0 ≤ pileTotalSpec l := by
  intro l
  induction l with
  | nil => show (0:Int) ≤ 0; rfl
  | cons c rest ih =>
    rw [pileTotalSpec_cons]
    have h1 : (0:Int) ≤ (if (isNumericOrAce c && !c.removed) = true then
        getCardValue c * 2 ^ kingsBound rest else 0) := by
      by_cases h : (isNumericOrAce c && !c.removed) = true
      · rw [if_pos h]
        exact mul_nonneg (getCardValue_nonneg c) (by positivity)
      · rw [if_neg h]
    omega

lemma pileTotal_nonneg (cards : List Card) : 0 ≤ pileTotal cards := by
  rw [pileTotal_eq_spec]
  exact pileTotalSpec_nonneg cards

end Caravan
namespace Caravan

lemma alternationScan_isSome_iff :
    ∀ (l : List MoveEntry) (i : Nat),
      (alternationScan i l).1.isSome = true ↔
        ¬ List.Chain' (fun x y => x.actor ≠ y.actor) l := by
  intro l
  induction l with
  | nil => intro i; simp [alternationScan]
  | cons a rest ih =>
    intro i
    cases rest with
    | nil => simp [alternationScan]
    | cons b rest2 =>
      by_cases h : a.actor = b.actor
      · simp [alternationScan, h, List.chain'_cons]
      · have he : (alternationScan i (a :: b :: rest2)).1 =
            (alternationScan (i + 1) (b :: rest2)).1 := by
          simp [alternationScan, h]
        rw [he, List.chain'_cons]
        simp [h, ih]

lemma jackScan_isSome_iff :
    ∀ (l : List MoveEntry) (i : Nat),
      (jackScan i l).isSome = true ↔
        ∃ m ∈ l, m.cardRank = .jack ∧ m.pileBeforeSize = some 0 := by
  intro l
  induction l with
  | nil => intro i; simp [jackScan]
  | cons a rest ih =>
    intro i
    by_cases h : a.cardRank = .jack ∧ a.pileBeforeSize = some 0
    · simp [jackScan, h]
    · have he : jackScan i (a :: rest) = jackScan (i + 1) rest := by
        simp [jackScan, h]
      rw [he]
      simp only [List.mem_cons]
      rw [ih]
      constructor
      · rintro ⟨m, hm, hprop⟩
        exact ⟨m, Or.inr hm, hprop⟩
      · rintro ⟨m, hm | hm, hprop⟩
        · subst hm; exact absurd hprop h
        · exact ⟨m, hm, hprop⟩

lemma oppScan_isSome_iff :
    ∀ (l : List MoveEntry) (i : Nat),
      (oppScan i l).1.isSome = true ↔
        ∃ m ∈ l, m.actor ≠ m.target ∧ isFaceRank m.cardRank = false := by
  intro l
  induction l with
  | nil => intro i; simp [oppScan]
  | cons a rest ih =>
    intro i
    by_cases h1 : a.actor = a.target
    · have he : (oppScan i (a :: rest)).1 = (oppScan (i + 1) rest).1 := by
        simp [oppScan, h1]
      rw [he]
      simp only [List.mem_cons]
      rw [ih]
      constructor
      · rintro ⟨m, hm, hprop⟩
        exact ⟨m, Or.inr hm, hprop⟩
      · rintro ⟨m, hm | hm, hprop⟩
        · subst hm; exact absurd h1 hprop.1
        · exact ⟨m, hm, hprop⟩
    · by_cases h2 : isFaceRank a.cardRank = false
      · have he : (oppScan i (a :: rest)).1 = some (i, a.cardRank) := by
          simp [oppScan, h1, h2]
        rw [he]
        simp only [List.mem_cons]
        constructor
        · intro _
          exact ⟨a, Or.inl rfl, h1, h2⟩
        · intro _; rfl
      · have he : (oppScan i (a :: rest)).1 = (oppScan (i + 1) rest).1 := by
          rw [Bool.not_eq_false] at h2
          simp [oppScan, h1, h2]
        rw [he]
        simp only [List.mem_cons]
        rw [ih]
        rw [Bool.not_eq_false] at h2
        constructor
        · rintro ⟨m, hm, hprop⟩
          exact ⟨m, Or.inr hm, hprop⟩
        · rintro ⟨m, hm | hm, hprop⟩
          · subst hm; rw [h2] at hprop; exact absurd hprop.2 (by simp)
          · exact ⟨m, hm, hprop⟩

end Caravan
namespace Caravan

lemma canPlace_jack_empty (card : Card) (a t : Side) (h : card.rank = .jack) :
    (canPlaceCardOnTargetWithReason card [] a t).ok = false := by
  have hface : isFaceCard card = true := by
    unfold isFaceCard isFaceRank
    rw [h]
  have hnum : isNumericOrAce card = false := by
    unfold isNumericOrAce
    rw [h]
  cases a <;> cases t <;>
    simp [canPlaceCardOnTargetWithReason, hface, hnum, h]

/-- Claim C5: a Jack is never accepted against an empty pile: whenever the
target pile's card list is empty and every card of the actor's hand with
the given id is a Jack, `placeCard` leaves every field but the message
unchanged; in particular the pile stays empty and nothing is committed. -/
theorem claim5_jack_never_on_empty_pile (g : GameState) (a t : Side)
    (cardId pileIndex : Nat) (tvi : Option Nat)
    (hpile : (g.playerOf t).piles.getD pileIndex [] = [])
    (hJack : ∀ c ∈ (g.playerOf a).hand, c.id = cardId → c.rank = .jack) :
    { placeCard g a t cardId pileIndex tvi with message := g.message } = g ∧
    ((placeCard g a t cardId pileIndex tvi).playerOf t).piles.getD pileIndex [] = [] ∧
    (placeCard g a t cardId pileIndex tvi).moveCount = g.moveCount ∧
    (placeCard g a t cardId pileIndex tvi).moveLog = g.moveLog := by
  have hmc : (placeCard g a t cardId pileIndex tvi).moveCount = g.moveCount := by
    by_cases hGo : g.gameOver = true
    · rw [placeCard_gameOver g a t cardId pileIndex tvi hGo]
    · replace hGo : g.gameOver = false := by simpa using hGo
      cases hIdx : (g.playerOf a).hand.findIdx? (fun c => c.id = cardId) with
      | none => rw [placeCard_notFound g a t cardId pileIndex tvi hGo hIdx]
      | some hi =>
        obtain ⟨hlt, hp, -⟩ := List.findIdx?_eq_some_iff_getElem.mp hIdx
        have hmem : (g.playerOf a).hand[hi] ∈ (g.playerOf a).hand := List.getElem_mem hlt
        have hid : ((g.playerOf a).hand[hi]).id = cardId := by simpa using hp
        have hrank : ((g.playerOf a).hand[hi]).rank = .jack :=
          hJack _ hmem hid
        have hcard : (g.playerOf a).hand.getD hi default = (g.playerOf a).hand[hi] := by
          unfold List.getD
          rw [List.get?_eq_getElem?, List.getElem?_eq_getElem hlt]
          rfl
        have hok : (canPlaceCardOnTargetWithReason
            ((g.playerOf a).hand.getD hi default)
            ((g.playerOf t).piles.getD pileIndex []) a t).ok = false := by
          rw [hcard, hpile]
          exact canPlace_jack_empty _ a t hrank
        rw [placeCard_invalid g a t cardId pileIndex tvi hi hGo hIdx hok]
  have hframe := placeCard_reject_frame g a t cardId pileIndex tvi hmc
  refine ⟨hframe, ?_, hmc, ?_⟩
  · have : ((placeCard g a t cardId pileIndex tvi).playerOf t).piles =
        (g.playerOf t).piles := by
      conv_rhs => rw [← hframe]
      cases t <;> rfl
    rw [this, hpile]
  · conv_rhs => rw [← hframe]

/-- Witness for C5 at a concrete state: a Jack dropped on an empty own pile
is rejected, the pile stays empty, nothing is logged. -/
theorem claim5_witness :
    { placeCard baseGame .player .player 6 0 none with message := baseGame.message } = baseGame ∧
    ((placeCard baseGame .player .player 6 0 none).playerOf .player).piles.getD 0 [] = [] ∧
    (placeCard baseGame .player .player 6 0 none).moveCount = baseGame.moveCount ∧
    (placeCard baseGame .player .player 6 0 none).moveLog = baseGame.moveLog :=
  claim5_jack_never_on_empty_pile baseGame .player .player 6 0 none rfl (by decide)

end Caravan
namespace Caravan

/-- Claim C4 (amended): every rejected `placeCard` call — one that does not
commit, i.e. leaves the move counter unchanged — leaves every field except
the message unchanged: hands, piles, deck, turn, move counter and move log
are all as before. (Validator and face-target failures attach a message;
game-over and missing-card rejections return the state without touching the
message.) -/
theorem claim4_rejection_frame (g : GameState) (a t : Side)
    (cardId pileIndex : Nat) (tvi : Option Nat)
    (hrej : (placeCard g a t cardId pileIndex tvi).moveCount = g.moveCount) :
    { placeCard g a t cardId pileIndex tvi with message := g.message } = g ∧
    (placeCard g a t cardId pileIndex tvi).player.hand = g.player.hand ∧
    (placeCard g a t cardId pileIndex tvi).player.piles = g.player.piles ∧
    (placeCard g a t cardId pileIndex tvi).ai.hand = g.ai.hand ∧
    (placeCard g a t cardId pileIndex tvi).ai.piles = g.ai.piles ∧
    (placeCard g a t cardId pileIndex tvi).deck = g.deck ∧
    (placeCard g a t cardId pileIndex tvi).turn = g.turn ∧
    (placeCard g a t cardId pileIndex tvi).moveLog = g.moveLog := by
  have hframe := placeCard_reject_frame g a t cardId pileIndex tvi hrej
  refine ⟨hframe, ?_, ?_, ?_, ?_, ?_, ?_, ?_⟩ <;> conv_rhs => rw [← hframe]

/-- Witness for C4 at a concrete state: on a finished game `placeCard` is
rejected and every field except the message is unchanged. -/
theorem claim4_witness :
    { placeCard overGame .player .player 3 0 none with message := overGame.message } = overGame ∧
    (placeCard overGame .player .player 3 0 none).player.hand = overGame.player.hand ∧
    (placeCard overGame .player .player 3 0 none).player.piles = overGame.player.piles ∧
    (placeCard overGame .player .player 3 0 none).ai.hand = overGame.ai.hand ∧
    (placeCard overGame .player .player 3 0 none).ai.piles = overGame.ai.piles ∧
    (placeCard overGame .player .player 3 0 none).deck = overGame.deck ∧
    (placeCard overGame .player .player 3 0 none).turn = overGame.turn ∧
    (placeCard overGame .player .player 3 0 none).moveLog = overGame.moveLog :=
  claim4_rejection_frame overGame .player .player 3 0 none rfl

/-- Counterexample to C4 as stated: a rejected call does not always attach a
rejection message. On a finished game with no pending message, `placeCard`
is rejected (the state is fully unchanged) yet the message stays `none`. -/
theorem claim4_counterexample :
    overGame.gameOver = true ∧
    placeCard overGame .player .player 3 0 none = overGame ∧
    (placeCard overGame .player .player 3 0 none).message = none :=
  ⟨rfl, rfl, rfl⟩

/-- Claim C7: on the AI turn with zero legal candidate moves, the AI step
only reverts the turn to the human and sets a message; hands, piles, deck,
move counter and move log are untouched. -/
theorem claim7_ai_skip (g : GameState) (k : Nat)
    (hen : g.aiEnabled = true) (hGo : g.gameOver = false) (ht : g.turn = .ai)
    (hmoves : aiCandidateMoves g = []) :
    aiStep g k =
      { g with turn := .player, message := some "Opponent skipped (no valid moves)." } ∧
    { aiStep g k with turn := g.turn, message := g.message } = g ∧
    (aiStep g k).turn = .player ∧
    (aiStep g k).moveCount = g.moveCount ∧
    (aiStep g k).moveLog = g.moveLog ∧
    (aiStep g k).deck = g.deck ∧
    (aiStep g k).player = g.player ∧
    (aiStep g k).ai = g.ai := by
  have hstep : aiStep g k =
      { g with turn := .player, message := some "Opponent skipped (no valid moves)." } := by
    unfold aiStep
    rw [if_neg (by simp [hGo, hen, ht]), hmoves]
  refine ⟨hstep, ?_, ?_, ?_, ?_, ?_, ?_, ?_⟩ <;> rw [hstep]

/-- Witness for C7 at a concrete state: the AI holds no cards, so its turn
is skipped with only turn and message changing. -/
theorem claim7_witness :
    aiStep aiStuckGame 0 =
      { aiStuckGame with turn := .player, message := some "Opponent skipped (no valid moves)." } ∧
    { aiStep aiStuckGame 0 with turn := aiStuckGame.turn, message := aiStuckGame.message } =
      aiStuckGame ∧
    (aiStep aiStuckGame 0).turn = .player ∧
    (aiStep aiStuckGame 0).moveCount = aiStuckGame.moveCount ∧
    (aiStep aiStuckGame 0).moveLog = aiStuckGame.moveLog ∧
    (aiStep aiStuckGame 0).deck = aiStuckGame.deck ∧
    (aiStep aiStuckGame 0).player = aiStuckGame.player ∧
    (aiStep aiStuckGame 0).ai = aiStuckGame.ai :=
  claim7_ai_skip aiStuckGame 0 rfl rfl rfl rfl

/-- Claim C10: at the commit point a face card aimed at a non-empty pile
with no target index is always rejected with only the message changing, so
probe mode never commits. -/
theorem claim10_face_needs_target (g : GameState) (a t : Side)
    (cardId pileIndex : Nat) (hi : Nat)
    (hGo : g.gameOver = false)
    (hIdx : (g.playerOf a).hand.findIdx? (fun c => c.id = cardId) = some hi)
    (hface : isFaceCard ((g.playerOf a).hand.getD hi default) = true)
    (hlen : ((g.playerOf t).piles.getD pileIndex []).length > 0) :
    ∃ m, placeCard g a t cardId pileIndex none = { g with message := some m } := by
  have hnum : isNumericOrAce ((g.playerOf a).hand.getD hi default) = false :=
    isNumericOrAce_false_of_face _ hface
  by_cases hok : (canPlaceCardOnTargetWithReason ((g.playerOf a).hand.getD hi default)
      ((g.playerOf t).piles.getD pileIndex []) a t).ok = true
  · exact ⟨_, placeCard_face_none_nonempty g a t cardId pileIndex hi hGo hIdx hok hnum hlen⟩
  · replace hok : (canPlaceCardOnTargetWithReason ((g.playerOf a).hand.getD hi default)
        ((g.playerOf t).piles.getD pileIndex []) a t).ok = false := by simpa using hok
    exact ⟨_, placeCard_invalid g a t cardId pileIndex none hi hGo hIdx hok⟩

/-- Witness for C10 at a concrete state: a Queen dropped on a non-empty own
pile without a target index is rejected with a message. -/
theorem claim10_witness :
    ∃ m, placeCard baseGame .player .player 5 1 none = { baseGame with message := some m } :=
  claim10_face_needs_target baseGame .player .player 5 1 2 rfl rfl rfl (by decide)

end Caravan
namespace Caravan

/-- Claim C3: the game ends exactly when a side has all three pile totals
in [21, 26]; a sole qualifying side wins; if both qualify the strictly
higher grand total wins and equality yields a tie; and once `gameOver`
holds, `placeCard` is a no-op returning the state unchanged. -/
theorem claim3_game_over (g : GameState) (a t : Side) (cardId pileIndex : Nat)
    (tvi : Option Nat) :
    (∀ x : Int, isInRange x = true ↔ (21 ≤ x ∧ x ≤ 26)) ∧
    (decideWinnerIfAny g).isSome = (playerAllInRange g || aiAllInRange g) ∧
    (playerAllInRange g = true → aiAllInRange g = false →
      decideWinnerIfAny g = some .player) ∧
    (aiAllInRange g = true → playerAllInRange g = false →
      decideWinnerIfAny g = some .ai) ∧
    (playerAllInRange g = true → aiAllInRange g = true →
      ((computePlayerTotals g.ai.piles).total < (computePlayerTotals g.player.piles).total →
        decideWinnerIfAny g = some .player) ∧
      ((computePlayerTotals g.player.piles).total < (computePlayerTotals g.ai.piles).total →
        decideWinnerIfAny g = some .ai) ∧
      ((computePlayerTotals g.player.piles).total = (computePlayerTotals g.ai.piles).total →
        decideWinnerIfAny g = some .tie)) ∧
    (g.gameOver = false →
      (checkEnd g).gameOver = (playerAllInRange g || aiAllInRange g) ∧
      ((playerAllInRange g || aiAllInRange g) = true →
        (checkEnd g).winner = decideWinnerIfAny g)) ∧
    (g.gameOver = true → placeCard g a t cardId pileIndex tvi = g) := by
  refine ⟨?_, ?_, ?_, ?_, ?_, ?_, ?_⟩
  · intro x
    unfold isInRange
    simp
  · by_cases hp : playerAllInRange g = true <;> by_cases ha : aiAllInRange g = true
    · by_cases hc : (computePlayerTotals g.player.piles).total >
          (computePlayerTotals g.ai.piles).total
      · simp [decideWinnerIfAny, hp, ha, hc]
      · by_cases hc2 : (computePlayerTotals g.ai.piles).total >
            (computePlayerTotals g.player.piles).total <;>
          simp [decideWinnerIfAny, hp, ha, hc, hc2]
    · simp [decideWinnerIfAny, hp, ha]
    · simp [decideWinnerIfAny, hp, ha]
    · simp only [Bool.not_eq_true] at hp ha
      simp [decideWinnerIfAny, hp, ha]
  · intro hp ha
    simp [decideWinnerIfAny, hp, ha]
  · intro ha hp
    simp [decideWinnerIfAny, hp, ha]
  · intro hp ha
    refine ⟨?_, ?_, ?_⟩
    · intro hc
      simp [decideWinnerIfAny, hp, ha, hc]
    · intro hc
      have hc2 : ¬ ((computePlayerTotals g.player.piles).total >
          (computePlayerTotals g.ai.piles).total) := by omega
      simp [decideWinnerIfAny, hp, ha, hc, hc2]
    · intro hc
      simp [decideWinnerIfAny, hp, ha, hc]
  · intro hGo
    unfold checkEnd
    rw [if_neg (by simp [hGo])]
    have hiff : (decideWinnerIfAny g).isSome = (playerAllInRange g || aiAllInRange g) := by
      by_cases hp : playerAllInRange g = true <;> by_cases ha : aiAllInRange g = true
      · by_cases hc : (computePlayerTotals g.player.piles).total >
            (computePlayerTotals g.ai.piles).total
        · simp [decideWinnerIfAny, hp, ha, hc]
        · by_cases hc2 : (computePlayerTotals g.ai.piles).total >
              (computePlayerTotals g.player.piles).total <;>
            simp [decideWinnerIfAny, hp, ha, hc, hc2]
      · simp [decideWinnerIfAny, hp, ha]
      · simp [decideWinnerIfAny, hp, ha]
      · simp only [Bool.not_eq_true] at hp ha
        simp [decideWinnerIfAny, hp, ha]
    cases hd : decideWinnerIfAny g with
    | none =>
      rw [hd] at hiff
      simp at hiff
      simp [hGo, hiff.1, hiff.2]
    | some w =>
      rw [hd] at hiff
      simp at hiff
      constructor
      · rcases hiff with h | h <;> simp [h]
      · intro _
        simp [hd]
  · intro hGo
    exact placeCard_gameOver g a t cardId pileIndex tvi hGo

/-- Witness for C3 at a concrete state: the player's three piles all total
21, the AI's do not, so the player is the winner; the end-check sets
`gameOver`; on the finished state `placeCard` is a no-op. -/
theorem claim3_witness :
    ((decideWinnerIfAny winGame).isSome =
      (playerAllInRange winGame || aiAllInRange winGame)) ∧
    decideWinnerIfAny winGame = some .player ∧
    (checkEnd winGame).gameOver = (playerAllInRange winGame || aiAllInRange winGame) ∧
    placeCard overGame .ai .ai 2 0 none = overGame := by
  have h := claim3_game_over winGame .ai .ai 2 0 none
  have h2 := claim3_game_over overGame .ai .ai 2 0 none
  exact ⟨h.2.1, h.2.2.1 (by decide) (by decide), (h.2.2.2.2.2.1 (by decide)).1,
    h2.2.2.2.2.2.2 (by decide)⟩

end Caravan
namespace Caravan

lemma get?_eq_some_getD (l : List Card) (v : Nat) (hv : v < l.length) :
    l.get? v = some (l.getD v default) := by
  unfold List.getD
  rw [List.get?_eq_getElem?, List.getElem?_eq_getElem hv]
  rfl

/-- Claim C1 (amended): when the game is live, the actor holds the card,
the validator accepts, and — for a face card — a target index inside the
pile is supplied whose card, for a King, is a live numeric/Ace, then
`placeCard` commits: the card leaves the actor's hand, it is appended at
the end for a numeric/Ace card and inserted immediately after the targeted
card for a face card (a Jack marking the targeted card removed), the actor
draws exactly one card when the deck is non-empty and the deck shrinks by
that card, the turn flips to the opponent, exactly one move-log entry is
appended and the move counter grows by one. -/
theorem claim1_place_card_effects (g : GameState) (a t : Side)
    (cardId pileIndex : Nat) (tvi : Option Nat) (hi : Nat) (card : Card)
    (hGo : g.gameOver = false)
    (hIdx : (g.playerOf a).hand.findIdx? (fun c => c.id = cardId) = some hi)
    (hcard : (g.playerOf a).hand.getD hi default = card)
    (hok : (canPlaceCardOnTargetWithReason card
      ((g.playerOf t).piles.getD pileIndex []) a t).ok = true)
    (hcase : isNumericOrAce card = true ∨
      (isFaceCard card = true ∧ ∃ v, tvi = some v ∧
        v < ((g.playerOf t).piles.getD pileIndex []).length ∧
        (card.rank = .king →
          (match ((g.playerOf t).piles.getD pileIndex []).get? v with
            | some tc => isNumericOrAce tc && !tc.removed
            | none => false) = true))) :
    ((placeCard g a t cardId pileIndex tvi).playerOf a).hand =
      (g.playerOf a).hand.eraseIdx hi ++ g.deck.take 1 ∧
    (placeCard g a t cardId pileIndex tvi).deck = g.deck.tail ∧
    (g.deck ≠ [] →
      ((placeCard g a t cardId pileIndex tvi).playerOf a).hand.length =
        (g.playerOf a).hand.length ∧
      (placeCard g a t cardId pileIndex tvi).deck.length + 1 = g.deck.length) ∧
    (g.deck = [] →
      ((placeCard g a t cardId pileIndex tvi).playerOf a).hand.length + 1 =
        (g.playerOf a).hand.length) ∧
    (isNumericOrAce card = true →
      ((placeCard g a t cardId pileIndex tvi).playerOf t).piles =
        (g.playerOf t).piles.set pileIndex
          (((g.playerOf t).piles.getD pileIndex []) ++ [card])) ∧
    (∀ v, tvi = some v → isFaceCard card = true →
      ((placeCard g a t cardId pileIndex tvi).playerOf t).piles =
        (g.playerOf t).piles.set pileIndex
          (if card.rank = .jack then
            (spliceInsert ((g.playerOf t).piles.getD pileIndex []) (v + 1) card).set v
              { ((g.playerOf t).piles.getD pileIndex []).getD v default with removed := true }
          else spliceInsert ((g.playerOf t).piles.getD pileIndex []) (v + 1) card)) ∧
    (placeCard g a t cardId pileIndex tvi).turn = a.opp ∧
    (placeCard g a t cardId pileIndex tvi).moveLog = g.moveLog ++
      [{ actor := a, target := t, cardRank := card.rank, pileIndex := pileIndex,
         targetVisibleIndex := tvi, aiEnabledAtMove := g.aiEnabled,
         prevTurn := g.turn, nextTurn := a.opp, time := 0, pileBeforeSize := none }] ∧
    (placeCard g a t cardId pileIndex tvi).moveCount = g.moveCount + 1 := by
  have hlt : hi < (g.playerOf a).hand.length := (List.findIdx?_eq_some_iff_getElem.mp hIdx).1
  have hhandlen : ((g.playerOf a).hand.eraseIdx hi ++ g.deck.take 1).length =
      (g.playerOf a).hand.length - 1 + (g.deck.take 1).length := by
    rw [List.length_append, List.length_eraseIdx]
    simp [hlt]
  rcases hcase with hnum | ⟨hface, v, htvi, hvlt, hking⟩
  · subst hcard
    rw [placeCard_success_numeric g a t cardId pileIndex tvi hi hGo hIdx hnum hok]
    refine ⟨?_, ?_, ?_, ?_, ?_, ?_, ?_, ?_, ?_⟩
    · rw [commitMove_hand_actor, drawOne_fst_toList]
    · rw [commitMove_deck, drawOne_snd]
    · intro hdeck
      constructor
      · rw [commitMove_hand_actor, drawOne_fst_toList, hhandlen]
        cases hd : g.deck with
        | nil => exact absurd hd hdeck
        | cons d rest => simp; omega
      · rw [commitMove_deck, drawOne_snd]
        cases hd : g.deck with
        | nil => exact absurd hd hdeck
        | cons d rest => simp
    · intro hdeck
      rw [commitMove_hand_actor, drawOne_fst_toList, hhandlen, hdeck]
      simp
      omega
    · intro _
      rw [commitMove_piles_target]
    · intro v hv hface
      have := isNumericOrAce_false_of_face _ hface
      rw [hnum] at this
      exact absurd this (by simp)
    · rw [commitMove_turn]
    · rw [commitMove_moveLog]
    · rw [commitMove_moveCount]
  · subst hcard
    subst htvi
    rw [placeCard_success_face g a t cardId pileIndex v hi hGo hIdx hface hok hking]
    have hget := get?_eq_some_getD ((g.playerOf t).piles.getD pileIndex []) v hvlt
    refine ⟨?_, ?_, ?_, ?_, ?_, ?_, ?_, ?_, ?_⟩
    · rw [commitMove_hand_actor, drawOne_fst_toList]
    · rw [commitMove_deck, drawOne_snd]
    · intro hdeck
      constructor
      · rw [commitMove_hand_actor, drawOne_fst_toList, hhandlen]
        cases hd : g.deck with
        | nil => exact absurd hd hdeck
        | cons d rest => simp; omega
      · rw [commitMove_deck, drawOne_snd]
        cases hd : g.deck with
        | nil => exact absurd hd hdeck
        | cons d rest => simp
    · intro hdeck
      rw [commitMove_hand_actor, drawOne_fst_toList, hhandlen, hdeck]
      simp
      omega
    · intro hnum
      have := isNumericOrAce_false_of_face _ hface
      rw [hnum] at this
      exact absurd this (by simp)
    · intro v2 hv2 _
      have hv2e : v = v2 := by injection hv2
      subst hv2e
      rw [commitMove_piles_target]
      simp only [hget]
    · rw [commitMove_turn]
    · rw [commitMove_moveLog]
    · rw [commitMove_moveCount]

end Caravan
namespace Caravan

/-- Witness for C1 at a concrete state: a five played on an empty own pile
leaves the hand via index 0, the deck head is drawn, and the move counter
grows by one. -/
theorem claim1_witness :
    ((placeCard baseGame .player .player 3 0 none).playerOf .player).hand =
      (baseGame.playerOf .player).hand.eraseIdx 0 ++ baseGame.deck.take 1 ∧
    (placeCard baseGame .player .player 3 0 none).moveCount = baseGame.moveCount + 1 := by
  have h := claim1_place_card_effects baseGame .player .player 3 0 none 0 fiveSpades
    rfl rfl rfl rfl (Or.inl rfl)
  exact ⟨h.1, h.2.2.2.2.2.2.2.2⟩

/-- Counterexample to C1 as stated: the validator accepts a Queen on a
non-empty own pile, the game is live and the actor holds the card, yet
`placeCard` with no target index commits nothing — only a message is set
and the move counter does not grow. -/
theorem claim1_counterexample :
    baseGame.gameOver = false ∧
    (baseGame.playerOf .player).hand.findIdx? (fun c => c.id = 5) = some 2 ∧
    canPlaceCardOnTarget ((baseGame.playerOf .player).hand.getD 2 default)
      ((baseGame.playerOf .player).piles.getD 1 []) .player .player = true ∧
    placeCard baseGame .player .player 5 1 none =
      { baseGame with message := some "Choose a specific card to place J/Q/K onto." } ∧
    (placeCard baseGame .player .player 5 1 none).moveCount = baseGame.moveCount :=
  ⟨rfl, rfl, rfl, rfl, rfl⟩

lemma playerOf_turn_update (g : GameState) (turn2 s : Side) :
    ({ g with turn := turn2 } : GameState).playerOf s = g.playerOf s := by
  cases s <;> rfl

lemma placeCard_moveCount_turn_invariant (g : GameState) (turn2 : Side) (a t : Side)
    (cardId pileIndex : Nat) (tvi : Option Nat) :
    (placeCard { g with turn := turn2 } a t cardId pileIndex tvi).moveCount =
      (placeCard g a t cardId pileIndex tvi).moveCount := by
  have hpa := playerOf_turn_update g turn2 a
  have hpt := playerOf_turn_update g turn2 t
  by_cases hGo : g.gameOver = true
  · rw [placeCard_gameOver g a t cardId pileIndex tvi hGo,
      placeCard_gameOver { g with turn := turn2 } a t cardId pileIndex tvi hGo]
  · replace hGo : g.gameOver = false := by simpa using hGo
    cases hIdx : (g.playerOf a).hand.findIdx? (fun c => c.id = cardId) with
    | none =>
      have hIdx2 : (({ g with turn := turn2 } : GameState).playerOf a).hand.findIdx?
          (fun c => c.id = cardId) = none := by rw [hpa]; exact hIdx
      rw [placeCard_notFound g a t cardId pileIndex tvi hGo hIdx,
        placeCard_notFound { g with turn := turn2 } a t cardId pileIndex tvi hGo hIdx2]
    | some hi =>
      have hIdx2 : (({ g with turn := turn2 } : GameState).playerOf a).hand.findIdx?
          (fun c => c.id = cardId) = some hi := by rw [hpa]; exact hIdx
      by_cases hok : (canPlaceCardOnTargetWithReason ((g.playerOf a).hand.getD hi default)
          ((g.playerOf t).piles.getD pileIndex []) a t).ok = true
      · have hok2 : (canPlaceCardOnTargetWithReason
            ((({ g with turn := turn2 } : GameState).playerOf a).hand.getD hi default)
            ((({ g with turn := turn2 } : GameState).playerOf t).piles.getD pileIndex [])
            a t).ok = true := by rw [hpa, hpt]; exact hok
        by_cases hnum : isNumericOrAce ((g.playerOf a).hand.getD hi default) = true
        · have hnum2 : isNumericOrAce
              ((({ g with turn := turn2 } : GameState).playerOf a).hand.getD hi default) =
              true := by rw [hpa]; exact hnum
          rw [placeCard_success_numeric g a t cardId pileIndex tvi hi hGo hIdx hnum hok,
            placeCard_success_numeric { g with turn := turn2 } a t cardId pileIndex tvi hi
              hGo hIdx2 hnum2 hok2, commitMove_moveCount, commitMove_moveCount]
        · replace hnum : isNumericOrAce ((g.playerOf a).hand.getD hi default) = false := by
            simpa using hnum
          have hnum2 : isNumericOrAce
              ((({ g with turn := turn2 } : GameState).playerOf a).hand.getD hi default) =
              false := by rw [hpa]; exact hnum
          cases tvi with
          | none =>
            by_cases hlen : ((g.playerOf t).piles.getD pileIndex []).length > 0
            · have hlen2 : ((({ g with turn := turn2 } : GameState).playerOf t).piles.getD
                  pileIndex []).length > 0 := by rw [hpt]; exact hlen
              rw [placeCard_face_none_nonempty g a t cardId pileIndex hi hGo hIdx hok hnum hlen,
                placeCard_face_none_nonempty { g with turn := turn2 } a t cardId pileIndex hi
                  hGo hIdx2 hok2 hnum2 hlen2]
            · have hlen2 : ¬ ((({ g with turn := turn2 } : GameState).playerOf t).piles.getD
                  pileIndex []).length > 0 := by rw [hpt]; exact hlen
              by_cases hk : ((g.playerOf a).hand.getD hi default).rank = .king
              · have hk2 : ((({ g with turn := turn2 } : GameState).playerOf a).hand.getD
                    hi default).rank = .king := by rw [hpa]; exact hk
                rw [placeCard_face_none_king g a t cardId pileIndex hi hGo hIdx hok hnum hlen hk,
                  placeCard_face_none_king { g with turn := turn2 } a t cardId pileIndex hi
                    hGo hIdx2 hok2 hnum2 hlen2 hk2]
              · have hk2 : ¬ ((({ g with turn := turn2 } : GameState).playerOf a).hand.getD
                    hi default).rank = .king := by rw [hpa]; exact hk
                rw [placeCard_success_face_empty g a t cardId pileIndex hi hGo hIdx hok hnum
                    hlen hk,
                  placeCard_success_face_empty { g with turn := turn2 } a t cardId pileIndex hi
                    hGo hIdx2 hok2 hnum2 hlen2 hk2, commitMove_moveCount, commitMove_moveCount]
          | some v =>
            have hface : isFaceCard ((g.playerOf a).hand.getD hi default) = true := by
              unfold isFaceCard isFaceRank
              unfold isNumericOrAce at hnum
              cases hr : ((g.playerOf a).hand.getD hi default).rank <;> simp_all
            have hface2 : isFaceCard
                ((({ g with turn := turn2 } : GameState).playerOf a).hand.getD hi default) =
                true := by rw [hpa]; exact hface
            by_cases hk : ((g.playerOf a).hand.getD hi default).rank = .king
            · by_cases htgt : (match ((g.playerOf t).piles.getD pileIndex []).get? v with
                  | some tc => isNumericOrAce tc && !tc.removed
                  | none => false) = true
              · have hking : ((g.playerOf a).hand.getD hi default).rank = .king →
                    (match ((g.playerOf t).piles.getD pileIndex []).get? v with
                      | some tc => isNumericOrAce tc && !tc.removed
                      | none => false) = true := fun _ => htgt
                have hking2 : ((({ g with turn := turn2 } : GameState).playerOf a).hand.getD
                      hi default).rank = .king →
                    (match ((({ g with turn := turn2 } : GameState).playerOf t).piles.getD
                        pileIndex []).get? v with
                      | some tc => isNumericOrAce tc && !tc.removed
                      | none => false) = true := by rw [hpa, hpt]; exact hking
                rw [placeCard_success_face g a t cardId pileIndex v hi hGo hIdx hface hok hking,
                  placeCard_success_face { g with turn := turn2 } a t cardId pileIndex v hi
                    hGo hIdx2 hface2 hok2 hking2, commitMove_moveCount, commitMove_moveCount]
              · replace htgt : (match ((g.playerOf t).piles.getD pileIndex []).get? v with
                    | some tc => isNumericOrAce tc && !tc.removed
                    | none => false) = false := by simpa using htgt
                have hk2 : ((({ g with turn := turn2 } : GameState).playerOf a).hand.getD
                    hi default).rank = .king := by rw [hpa]; exact hk
                have htgt2 : (match ((({ g with turn := turn2 } : GameState).playerOf t).piles.getD
                      pileIndex []).get? v with
                    | some tc => isNumericOrAce tc && !tc.removed
                    | none => false) = false := by rw [hpt]; exact htgt
                rw [placeCard_king_badtarget g a t cardId pileIndex v hi hGo hIdx hok hnum hk htgt,
                  placeCard_king_badtarget { g with turn := turn2 } a t cardId pileIndex v hi
                    hGo hIdx2 hok2 hnum2 hk2 htgt2]
            · have hk2 : ¬ ((({ g with turn := turn2 } : GameState).playerOf a).hand.getD
                  hi default).rank = .king := by rw [hpa]; exact hk
              rw [placeCard_success_face g a t cardId pileIndex v hi hGo hIdx hface hok
                  (fun hkk => absurd hkk hk),
                placeCard_success_face { g with turn := turn2 } a t cardId pileIndex v hi
                  hGo hIdx2 hface2 hok2 (fun hkk => absurd hkk hk2),
                commitMove_moveCount, commitMove_moveCount]
      · replace hok : (canPlaceCardOnTargetWithReason ((g.playerOf a).hand.getD hi default)
            ((g.playerOf t).piles.getD pileIndex []) a t).ok = false := by simpa using hok
        have hok2 : (canPlaceCardOnTargetWithReason
            ((({ g with turn := turn2 } : GameState).playerOf a).hand.getD hi default)
            ((({ g with turn := turn2 } : GameState).playerOf t).piles.getD pileIndex [])
            a t).ok = false := by rw [hpa, hpt]; exact hok
        rw [placeCard_invalid g a t cardId pileIndex tvi hi hGo hIdx hok,
          placeCard_invalid { g with turn := turn2 } a t cardId pileIndex tvi hi hGo hIdx2 hok2]

/-- Claim C9: `placeCard` never consults the turn field when deciding
acceptance. First, over-writing the turn with any value never changes
whether a call commits — for every candidate, numeric or face, accepted or
rejected. Second, any candidate passing the validator and the face-card
target checks (numeric/Ace appended, face card with a target index whose
card for a King is a live numeric/Ace, or J/Q on an empty pile with no
index) commits even when the turn belongs to the other side. Third, the
container drop probe — outside the mutation entry point — rejects any
payload whose owner is not the side to move. -/
theorem claim9_turn_not_consulted (g : GameState) (a t : Side)
    (cardId pileIndex : Nat) (tvi : Option Nat) (hi : Nat) (card : Card)
    (turn2 : Side) (payload : DragPayload) (dropSide : Side) (dropPile : Nat) :
    ((placeCard { g with turn := turn2 } a t cardId pileIndex tvi).moveCount =
      (placeCard g a t cardId pileIndex tvi).moveCount) ∧
    (g.gameOver = false →
      (g.playerOf a).hand.findIdx? (fun c => c.id = cardId) = some hi →
      (g.playerOf a).hand.getD hi default = card →
      (canPlaceCardOnTargetWithReason card
        ((g.playerOf t).piles.getD pileIndex []) a t).ok = true →
      (isNumericOrAce card = true ∨
        (isFaceCard card = true ∧ ∃ v, tvi = some v ∧
          (card.rank = .king →
            (match ((g.playerOf t).piles.getD pileIndex []).get? v with
              | some tc => isNumericOrAce tc && !tc.removed
              | none => false) = true)) ∨
        (isFaceCard card = true ∧ tvi = none ∧
          ¬ ((g.playerOf t).piles.getD pileIndex []).length > 0 ∧
          card.rank ≠ .king)) →
      g.turn ≠ a →
      (placeCard g a t cardId pileIndex tvi).moveCount = g.moveCount + 1 ∧
      (placeCard g a t cardId pileIndex tvi).turn = a.opp) ∧
    (payload.owner ≠ g.turn →
      canDropOnTargetPileContainer g dropSide dropPile (some payload) = false) := by
  refine ⟨placeCard_moveCount_turn_invariant g turn2 a t cardId pileIndex tvi, ?_, ?_⟩
  · intro hGo hIdx hcard hok hcase _
    subst hcard
    rcases hcase with hnum | ⟨hface, v, htvi, hking⟩ | ⟨hface, htvi, hlen, hk⟩
    · rw [placeCard_success_numeric g a t cardId pileIndex tvi hi hGo hIdx hnum hok]
      exact ⟨commitMove_moveCount _ _ _ _ _ _ _ _, commitMove_turn _ _ _ _ _ _ _ _⟩
    · subst htvi
      rw [placeCard_success_face g a t cardId pileIndex v hi hGo hIdx hface hok hking]
      exact ⟨commitMove_moveCount _ _ _ _ _ _ _ _, commitMove_turn _ _ _ _ _ _ _ _⟩
    · subst htvi
      have hnum : isNumericOrAce ((g.playerOf a).hand.getD hi default) = false :=
        isNumericOrAce_false_of_face _ hface
      rw [placeCard_success_face_empty g a t cardId pileIndex hi hGo hIdx hok hnum hlen hk]
      exact ⟨commitMove_moveCount _ _ _ _ _ _ _ _, commitMove_turn _ _ _ _ _ _ _ _⟩
  · intro h
    unfold canDropOnTargetPileContainer
    by_cases hs : payload.source = "hand"
    · simp [hs, h]
    · simp [hs]

/-- Witness for C9 at concrete states: changing the turn does not change
the commitment of a concrete numeric move; with the turn set to the AI,
the player's Jack onto a targeted card of an own pile — a face-card move —
still commits through `placeCard`; and the drop probe refuses the
player's payload. -/
theorem claim9_witness :
    ((placeCard { baseGame with turn := .ai } .player .player 3 0 none).moveCount =
      (placeCard baseGame .player .player 3 0 none).moveCount) ∧
    ((placeCard turnedGame .player .player 6 1 (some 0)).moveCount =
        turnedGame.moveCount + 1 ∧
      (placeCard turnedGame .player .player 6 1 (some 0)).turn = Side.player.opp) ∧
    canDropOnTargetPileContainer turnedGame .player 0
      (some ⟨"hand", .player, 3⟩) = false := by
  have h1 := claim9_turn_not_consulted baseGame .player .player 3 0 none 0 fiveSpades
    .ai ⟨"hand", .player, 3⟩ .player 0
  have h2 := claim9_turn_not_consulted turnedGame .player .player 6 1 (some 0) 1 jackSpades
    .ai ⟨"hand", .player, 3⟩ .player 0
  exact ⟨h1.1,
    h2.2.1 rfl rfl rfl rfl (Or.inr (Or.inl ⟨rfl, 0, rfl, by decide⟩)) (by decide),
    h2.2.2 (by decide)⟩

end Caravan
namespace Caravan

lemma canPlace_own_numeric (card : Card) (cards : List Card) (s : Side)
    (hnum : isNumericOrAce card = true) :
    canPlaceCardOnTarget card cards s s =
      numericAppendLegal cards (getCardValue card) := by
  unfold canPlaceCardOnTarget canPlaceCardOnTargetWithReason
  by_cases h : numericAppendLegal cards (getCardValue card) = true <;>
    simp [hnum, h]

/-- Claim C2 (amended, restricted to the actor's own piles): once the
direction scan — which accounts for Queens flipping the context — has
fixed a direction over the live numeric/Ace values, the validator accepts
a numeric/Ace card exactly when its value strictly continues that
direction (so equal values are rejected); and with fewer than two live
numeric/Ace cards on the pile any numeric/Ace value is accepted. -/
theorem claim2_direction_law (cards : List Card) (card : Card) (s : Side)
    (hnum : isNumericOrAce card = true) :
    (∀ l : Int, (scanDir cards).dir = some .asc → (scanDir cards).last = some l →
      (canPlaceCardOnTarget card cards s s = true ↔ l < getCardValue card)) ∧
    (∀ l : Int, (scanDir cards).dir = some .desc → (scanDir cards).last = some l →
      (canPlaceCardOnTarget card cards s s = true ↔ getCardValue card < l)) ∧
    (liveNumericCount cards < 2 → canPlaceCardOnTarget card cards s s = true) := by
  refine ⟨?_, ?_, ?_⟩
  · intro l hdir hlast
    rw [canPlace_own_numeric card cards s hnum]
    unfold numericAppendLegal
    rw [hdir, hlast]
    simp
  · intro l hdir hlast
    rw [canPlace_own_numeric card cards s hnum]
    unfold numericAppendLegal
    rw [hdir, hlast]
    simp
  · intro hcount
    rw [canPlace_own_numeric card cards s hnum]
    apply numericAppendLegal_of_dir_none
    apply scanDirAux_dir_none_of_count_le_one cards _ rfl rfl
    omega

/-- Witness for C2 at concrete piles: on an ascending pile (Ace then five)
a four is accepted exactly when five is below four, hence rejected; on a
pile with a single live numeric card a seven is accepted. -/
theorem claim2_witness :
    (canPlaceCardOnTarget fourClubs [aceHearts, fiveSpades] .player .player = true ↔
      (5 : Int) < getCardValue fourClubs) ∧
    canPlaceCardOnTarget sevenClubs [fiveSpades] .player .player = true := by
  have h := claim2_direction_law [aceHearts, fiveSpades] fourClubs .player rfl
  have h2 := claim2_direction_law [fiveSpades] sevenClubs .player rfl
  exact ⟨h.1 5 rfl rfl, h2.2.2 (by decide)⟩

/-- Counterexample to C2 as stated: the unrestricted claim fails on an
opponent pile — an empty opponent pile has fewer than two live numeric/Ace
cards, yet a numeric card is rejected there by the validator's ownership
rule. -/
theorem claim2_counterexample :
    liveNumericCount [] < 2 ∧ isNumericOrAce fiveSpades = true ∧
    canPlaceCardOnTarget fiveSpades ([] : List Card) .player .ai = false :=
  ⟨by decide, rfl, rfl⟩

end Caravan
namespace Caravan

/-- Claim C8: the pile-total fold equals the specification's closed form —
the sum over live numeric/Ace cards of base value times the product of the
multipliers of the Kings bound to that card (×2 per King, stacking
multiplicatively), removed cards contributing zero — and the player totals
are never negative, per pile or in the grand total. -/
theorem claim8_pile_totals (cards : List Card) (piles : List (List Card)) :
    pileTotal cards = pileTotalSpec cards ∧
    (∀ x ∈ (computePlayerTotals piles).perPile, 0 ≤ x) ∧
    0 ≤ (computePlayerTotals piles).total := by
  refine ⟨pileTotal_eq_spec cards, ?_, ?_⟩
  · intro x hx
    unfold computePlayerTotals at hx
    simp at hx
    obtain ⟨p, -, rfl⟩ := hx
    exact pileTotal_nonneg p
  · unfold computePlayerTotals
    apply List.sum_nonneg
    intro x hx
    simp at hx
    obtain ⟨p, -, rfl⟩ := hx
    exact pileTotal_nonneg p

/-- Witness for C8 at a concrete pile: a five doubled by a King with a Jack
sitting on top matches the closed form, and the totals are non-negative. -/
theorem claim8_witness :
    pileTotal [fiveSpades, kingHearts, jackSpades] =
      pileTotalSpec [fiveSpades, kingHearts, jackSpades] ∧
    (0 : Int) ≤ 10 ∧
    0 ≤ (computePlayerTotals [[fiveSpades, kingHearts]]).total := by
  have h := claim8_pile_totals [fiveSpades, kingHearts, jackSpades] [[fiveSpades, kingHearts]]
  exact ⟨h.1, h.2.1 10 (by decide), h.2.2⟩

lemma runInvariants_errors_eq (g : GameState) :
    (runInvariants g).errors =
      altErrors g.moveLog ++ turnErrors g ++ jackErrors g.moveLog ++
        oppErrors g.moveLog ++ deckErrors g := by
  unfold runInvariants altErrors turnErrors jackErrors oppErrors deckErrors
  dsimp only
  by_cases hcond : g.gameOver = false ∧ g.moveLog ≠ []
  · rw [if_pos hcond, if_pos hcond]
    cases hl : g.moveLog.getLast? with
    | none => rfl
    | some last => by_cases hturn : g.turn ≠ last.actor.opp <;> simp [hturn]
  · rw [if_neg hcond, if_neg hcond]

lemma mem_altErrors_iff (log : List MoveEntry) (x : InvError) :
    x ∈ altErrors log ↔
      ∃ i s, (alternationScan 1 log).1 = some (i, s) ∧ x = .turnAlternation i s := by
  unfold altErrors
  rcases h : (alternationScan 1 log).1 with _ | ⟨i, s⟩ <;> simp <;> aesop

lemma mem_turnErrors_iff (g : GameState) (x : InvError) :
    x ∈ turnErrors g ↔
      (g.gameOver = false ∧ ∃ last, g.moveLog.getLast? = some last ∧
        g.turn ≠ last.actor.opp ∧ x = .turnMismatch last.actor.opp g.turn) := by
  unfold turnErrors
  by_cases hcond : g.gameOver = false ∧ g.moveLog ≠ []
  · rw [if_pos hcond]
    cases hl : g.moveLog.getLast? with
    | none =>
      rw [List.getLast?_eq_none_iff] at hl
      exact absurd hl hcond.2
    | some last =>
      by_cases hturn : g.turn ≠ last.actor.opp <;> simp [hturn, hcond.1]
  · rw [if_neg hcond]
    simp only [List.not_mem_nil, false_iff]
    rintro ⟨hGo, last, hlast, -, -⟩
    apply hcond
    refine ⟨hGo, ?_⟩
    intro hnil
    rw [hnil] at hlast
    simp at hlast

lemma mem_jackErrors_iff (log : List MoveEntry) (x : InvError) :
    x ∈ jackErrors log ↔ ∃ i, jackScan 0 log = some i ∧ x = .jackOnEmpty i := by
  unfold jackErrors
  rcases h : jackScan 0 log with _ | i <;> simp <;> aesop

lemma mem_oppErrors_iff (log : List MoveEntry) (x : InvError) :
    x ∈ oppErrors log ↔
      ∃ i r, (oppScan 0 log).1 = some (i, r) ∧ x = .opponentNonFace i r := by
  unfold oppErrors
  rcases h : (oppScan 0 log).1 with _ | ⟨i, r⟩ <;> simp <;> aesop

lemma mem_deckErrors_iff (g : GameState) (x : InvError) :
    x ∈ deckErrors g ↔ False := by
  unfold deckErrors
  rw [if_neg (by omega)]
  simp

end Caravan
namespace Caravan

/-- Claim C6: `runInvariants` is a pure function returning `{errors,
checked, moveCount}` with `moveCount` the length of the move log, and it
reports an error for a checked condition exactly when that condition
fails: consecutive log entries sharing an actor; the turn differing from
the opponent of the last entry's actor on a live game; a Jack entry
recorded against a pile of size zero; a non-face entry targeting the
opponent; and a negative deck length (impossible for a list, hence never
reported). -/
theorem claim6_run_invariants (g : GameState) :
    (runInvariants g).moveCount = g.moveLog.length ∧
    ((∃ i s, InvError.turnAlternation i s ∈ (runInvariants g).errors) ↔
      ¬ List.Chain' (fun x y => x.actor ≠ y.actor) g.moveLog) ∧
    ((∃ e a2, InvError.turnMismatch e a2 ∈ (runInvariants g).errors) ↔
      (g.gameOver = false ∧ ∃ last, g.moveLog.getLast? = some last ∧
        g.turn ≠ last.actor.opp)) ∧
    ((∃ i, InvError.jackOnEmpty i ∈ (runInvariants g).errors) ↔
      ∃ m ∈ g.moveLog, m.cardRank = .jack ∧ m.pileBeforeSize = some 0) ∧
    ((∃ i r, InvError.opponentNonFace i r ∈ (runInvariants g).errors) ↔
      ∃ m ∈ g.moveLog, m.actor ≠ m.target ∧ isFaceRank m.cardRank = false) ∧
    ((∃ n, InvError.deckNegative n ∈ (runInvariants g).errors) ↔
      (g.deck.length : Int) < 0) := by
  refine ⟨rfl, ?_, ?_, ?_, ?_, ?_⟩
  · rw [← alternationScan_isSome_iff g.moveLog 1, Option.isSome_iff_exists]
    simp only [runInvariants_errors_eq, List.mem_append, mem_altErrors_iff,
      mem_turnErrors_iff, mem_jackErrors_iff, mem_oppErrors_iff, mem_deckErrors_iff]
    constructor
    · rintro ⟨i, s, h⟩
      aesop
    · rintro ⟨⟨i, s⟩, heq⟩
      exact ⟨i, s, Or.inl (Or.inl (Or.inl (Or.inl ⟨i, s, heq, rfl⟩)))⟩
  · simp only [runInvariants_errors_eq, List.mem_append, mem_altErrors_iff,
      mem_turnErrors_iff, mem_jackErrors_iff, mem_oppErrors_iff, mem_deckErrors_iff]
    constructor
    · rintro ⟨e, a2, h⟩
      aesop
    · rintro ⟨hGo, last, hlast, hturn⟩
      exact ⟨last.actor.opp, g.turn,
        Or.inl (Or.inl (Or.inl (Or.inr ⟨hGo, last, hlast, hturn, rfl⟩)))⟩
  · rw [← jackScan_isSome_iff g.moveLog 0, Option.isSome_iff_exists]
    simp only [runInvariants_errors_eq, List.mem_append, mem_altErrors_iff,
      mem_turnErrors_iff, mem_jackErrors_iff, mem_oppErrors_iff, mem_deckErrors_iff]
    constructor
    · rintro ⟨i, h⟩
      aesop
    · rintro ⟨i, heq⟩
      exact ⟨i, Or.inl (Or.inl (Or.inr ⟨i, heq, rfl⟩))⟩
  · rw [← oppScan_isSome_iff g.moveLog 0, Option.isSome_iff_exists]
    simp only [runInvariants_errors_eq, List.mem_append, mem_altErrors_iff,
      mem_turnErrors_iff, mem_jackErrors_iff, mem_oppErrors_iff, mem_deckErrors_iff]
    constructor
    · rintro ⟨i, r, h⟩
      aesop
    · rintro ⟨⟨i, r⟩, heq⟩
      exact ⟨i, r, Or.inl (Or.inr ⟨i, r, heq, rfl⟩)⟩
  · simp only [runInvariants_errors_eq, List.mem_append, mem_altErrors_iff,
      mem_turnErrors_iff, mem_jackErrors_iff, mem_oppErrors_iff, mem_deckErrors_iff]
    constructor
    · rintro ⟨n, h⟩
      aesop
    · intro h
      exact absurd h (by omega)

end Caravan
namespace Caravan

/-- Witness for C6 at a concrete state: on the fresh fixture the report's
move count matches the empty log and no alternation error is reported. -/
theorem claim6_witness :
    (runInvariants baseGame).moveCount = baseGame.moveLog.length ∧
    ((∃ i s, InvError.turnAlternation i s ∈ (runInvariants baseGame).errors) ↔
      ¬ List.Chain' (fun x y => x.actor ≠ y.actor) baseGame.moveLog) :=
  ⟨(claim6_run_invariants baseGame).1, (claim6_run_invariants baseGame).2.1⟩

end Caravan
